import Mathlib

/-!
Verification of the PDF crawler core (`crawler/crawler.py`).

Shallow embedding conventions:
* raw byte strings (`bytes`) are lists of natural numbers (each < 256 in
  practice; no theorem depends on the bound);
* Python `str` values are Lean `String`s (sequences of Unicode code points,
  matching Python's model);
* the network, the clock, the filesystem and the hash functions used for
  filename disambiguation are parameters (oracles) of the embedded
  functions, so that every definition stays executable and deterministic.
-/

namespace Crawler

/-! ## Bytes and the PDF validator (`_is_valid_pdf`, `_extract_pdf_from_response`) -/

/-- The byte string `%PDF-` (the PDF signature). -/
def pdfMagic : List Nat := [0x25, 0x50, 0x44, 0x46, 0x2D]

/-- The byte string `%%EOF` (the PDF end-of-file marker). -/
def eofMarker : List Nat := [0x25, 0x25, 0x45, 0x4F, 0x46]

/-- Python `content[-k:]`: the last `min k (length content)` bytes. -/
def lastBytes (k : Nat) (content : List Nat) : List Nat :=
  content.drop (content.length - k)

/-- Python `pat in l` on byte strings: `pat` occurs as a contiguous
subsequence of `l`. -/
def containsSeq (pat : List Nat) : List Nat → Bool
  | [] => pat.isPrefixOf []
  | b :: rest => pat.isPrefixOf (b :: rest) || containsSeq pat rest

theorem containsSeq_iff (pat l : List Nat) :
    containsSeq pat l = true ↔ pat <:+: l := by
  induction l with
  | nil =>
    simp [containsSeq, List.isPrefixOf_iff_prefix]
  | cons b rest ih =>
    simp [containsSeq, List.isPrefixOf_iff_prefix, ih, List.infix_cons_iff]

/-- `_is_valid_pdf(content)` from `crawler.py`:
`if not content or len(content) < 5: return False;
return content.startswith(b'%PDF-') and b'%%EOF' in content[-1024:]`. -/
def isValidPdf (content : List Nat) : Bool :=
  if content.isEmpty || content.length < 5 then false
  else pdfMagic.isPrefixOf content && containsSeq eofMarker (lastBytes 1024 content)

/-- Python `bytes.find(pattern)` restricted to what the code needs: the least
index at which `pdfMagic` occurs in `content`, if any. -/
def findMagic : List Nat → Option Nat
  | [] => none
  | b :: rest =>
    if pdfMagic.isPrefixOf (b :: rest) then some 0
    else (findMagic rest).map (· + 1)

/-- `_extract_pdf_from_response(content)` from `crawler.py`: `None` on empty
input, else the suffix of `content` from the first occurrence of `%PDF-`
onward, or `None` when the signature is absent. -/
def extractPdfFromResponse (content : List Nat) : Option (List Nat) :=
  if content.isEmpty then none
  else
    match findMagic content with
    | none => none
    | some i => some (content.drop i)

/-! ## Strings

Python `str` values are sequences of Unicode code points; we model them as
Lean `String`s and work on their `List Char` data. `str.endswith`,
`str.lower`, slicing and `strip` are modelled directly on the code-point
list. -/

/-- Python `s.endswith(suf)`. -/
def strEndsWith (s suf : String) : Bool := suf.data.isSuffixOf s.data

/-- Python `s.lower()` (ASCII case mapping, which is all the crawler uses). -/
def strToLower (s : String) : String := ⟨s.data.map Char.toLower⟩

/-- Python `sub in s` on strings: contiguous-substring test (via the
byte-string occurrence test on code points). -/
def strContains (s sub : String) : Bool :=
  containsSeq (sub.data.map Char.toNat) (s.data.map Char.toNat)

/-- Decimal digit character. -/
def digitChar (n : Nat) : Char := Char.ofNat (Char.toNat '0' + n)

/-- Decimal digits of `n`, most significant first (fuel-driven; `fuel = n + 1`
always suffices). Models Python `str(int)` for non-negative ints. -/
def natDigits : Nat → Nat → List Char
  | 0, _ => []
  | fuel + 1, n =>
    if n < 10 then [digitChar n]
    else natDigits fuel (n / 10) ++ [digitChar (n % 10)]

/-- Python `str(n)` for a non-negative integer. -/
def natStr (n : Nat) : String := ⟨natDigits (n + 1) n⟩

theorem natDigits_length_le (fuel : Nat) :
    ∀ n k, n < 10 ^ k → 1 ≤ k → (natDigits fuel n).length ≤ k := by
  induction fuel with
  | zero => intro n k _ _; simp [natDigits]
  | succ fuel ih =>
    intro n k hk h1
    by_cases h10 : n < 10
    · simpa [natDigits, h10] using h1
    · have hk2 : 2 ≤ k := by
        by_contra hlt
        have : k = 1 := by omega
        subst this
        simp at hk
        omega
      have hdiv : n / 10 < 10 ^ (k - 1) := by
        have : 10 ^ k = 10 ^ (k - 1) * 10 := by
          rw [← pow_succ]
          congr 1
          omega
        rw [this] at hk
        exact Nat.div_lt_of_lt_mul (by omega)
      have := ih (n / 10) (k - 1) hdiv (by omega)
      simp only [natDigits, h10, if_false, List.length_append, List.length_cons,
        List.length_nil]
      omega

/-! ## Percent-decoding (`urllib.parse.unquote` with UTF-8 / errors="replace")

The crawler calls the standard library's `unquote`.  We model it at the level
the crawler relies on: runs of `%XX` escapes decode to bytes which are then
UTF-8-decoded with U+FFFD replacement for malformed sequences; a `%` not
followed by two hex digits stays literal; all other characters pass through
unchanged. -/

/-- U+FFFD, the Unicode replacement character. -/
def replacementChar : Char := Char.ofNat 0xFFFD

/-- Value of a hexadecimal digit character, if any. -/
def hexDigit (c : Char) : Option Nat :=
  if '0' ≤ c ∧ c ≤ '9' then some (c.toNat - Char.toNat '0')
  else if 'a' ≤ c ∧ c ≤ 'f' then some (c.toNat - Char.toNat 'a' + 10)
  else if 'A' ≤ c ∧ c ≤ 'F' then some (c.toNat - Char.toNat 'A' + 10)
  else none

/-- Is `b` a UTF-8 continuation byte? -/
def isContByte (b : Nat) : Bool := 0x80 ≤ b && b ≤ 0xBF

/-- UTF-8 decoding with U+FFFD replacement for malformed input (fuel-driven;
`fuel = length` suffices since every step consumes at least one byte). -/
def utf8DecodeAux : Nat → List Nat → List Char
  | 0, _ => []
  | _, [] => []
  | fuel + 1, b :: rest =>
    if b < 0x80 then Char.ofNat b :: utf8DecodeAux fuel rest
    else if 0xC2 ≤ b ∧ b ≤ 0xDF then
      match rest with
      | c :: rest' =>
        if isContByte c then
          Char.ofNat ((b - 0xC0) * 0x40 + (c - 0x80)) :: utf8DecodeAux fuel rest'
        else replacementChar :: utf8DecodeAux fuel rest
      | [] => [replacementChar]
    else if 0xE0 ≤ b ∧ b ≤ 0xEF then
      match rest with
      | c :: d :: rest' =>
        if isContByte c && isContByte d then
          Char.ofNat ((b - 0xE0) * 0x1000 + (c - 0x80) * 0x40 + (d - 0x80)) ::
            utf8DecodeAux fuel rest'
        else replacementChar :: utf8DecodeAux fuel rest
      | _ => replacementChar :: utf8DecodeAux fuel rest
    else if 0xF0 ≤ b ∧ b ≤ 0xF4 then
      match rest with
      | c :: d :: e :: rest' =>
        if isContByte c && isContByte d && isContByte e then
          Char.ofNat
              ((b - 0xF0) * 0x40000 + (c - 0x80) * 0x1000 + (d - 0x80) * 0x40 +
                (e - 0x80)) ::
            utf8DecodeAux fuel rest'
        else replacementChar :: utf8DecodeAux fuel rest
      | _ => replacementChar :: utf8DecodeAux fuel rest
    else replacementChar :: utf8DecodeAux fuel rest

def utf8DecodeReplace (bytes : List Nat) : List Char :=
  utf8DecodeAux bytes.length bytes

/-- Collect the maximal leading run of `%XX` escapes as bytes, returning the
bytes and the unconsumed remainder. -/
def collectEscapes : Nat → List Char → List Nat × List Char
  | 0, cs => ([], cs)
  | fuel + 1, '%' :: a :: b :: rest =>
    match hexDigit a, hexDigit b with
    | some x, some y =>
      let (bs, rest') := collectEscapes fuel rest
      ((16 * x + y) :: bs, rest')
    | _, _ => ([], '%' :: a :: b :: rest)
  | _, cs => ([], cs)

def unquoteAux : Nat → List Char → List Char
  | 0, _ => []
  | _, [] => []
  | fuel + 1, c :: cs =>
    if c = '%' then
      match collectEscapes (c :: cs).length (c :: cs) with
      | ([], _) => c :: unquoteAux fuel cs
      | (bs, rest) => utf8DecodeReplace bs ++ unquoteAux fuel rest
    else c :: unquoteAux fuel cs

/-- `urllib.parse.unquote` as used by the crawler. -/
def pyUnquote (s : String) : String := ⟨unquoteAux s.data.length s.data⟩

/-! ## `_sanitize_filename` -/

/-- One character of the regex class `[<>:"/\\|?*\x00-\x1f]` from
`_sanitize_filename`. -/
def forbiddenChar (c : Char) : Bool :=
  c = '<' || c = '>' || c = ':' || c = '"' || c = '/' || c = '\\' || c = '|' ||
    c = '?' || c = '*' || c.toNat ≤ 0x1f

/-- `name.lower().endswith('.pdf')`. -/
def lowerEndsWithPdf (s : String) : Bool := strEndsWith (strToLower s) ".pdf"

/-- `name[:-4]` applied when the name ends with `.pdf` case-insensitively. -/
def dropPdfEnding (s : String) : String :=
  if lowerEndsWithPdf s then ⟨s.data.take (s.data.length - 4)⟩ else s

/-- `re.sub(r'[<>:"/\\|?*\x00-\x1f]', '_', name)` followed by the three
`replace` calls for `\n`, `\r`, `\t` (already covered by the class, kept for
fidelity). -/
def replaceForbidden (s : String) : String :=
  let s : String := ⟨s.data.map fun c => if forbiddenChar c then '_' else c⟩
  ⟨s.data.map fun c => if c = '\n' || c = '\r' || c = '\t' then '_' else c⟩

/-- `re.sub(r'[ _]+', '_', name)`: collapse every run of spaces/underscores to
a single underscore. `prev` records whether the previous character belonged to
such a run. -/
def collapseRuns (prev : Bool) : List Char → List Char
  | [] => []
  | c :: rest =>
    if c = ' ' || c = '_' then
      if prev then collapseRuns true rest else '_' :: collapseRuns true rest
    else c :: collapseRuns false rest

/-- A character stripped by `name.strip(' _.')`. -/
def stripSetChar (c : Char) : Bool := c = ' ' || c = '_' || c = '.'

/-- `name.strip(' _.')`. -/
def stripEnds (l : List Char) : List Char :=
  ((l.dropWhile fun c => stripSetChar c).reverse.dropWhile fun c =>
      stripSetChar c).reverse

/-- The deterministic part of `_sanitize_filename(name)`: URL-decode, strip a
trailing `.pdf`, replace forbidden characters, collapse space/underscore runs,
strip `' _.'` from both ends, truncate to 200 characters. -/
def sanitizeCore (name : String) : String :=
  ⟨(stripEnds (collapseRuns false
      (replaceForbidden (dropPdfEnding (pyUnquote name))).data)).take 200⟩

/-- The cleaned name after the `if not name: name = f"document_{int(time.time())}"`
fallback of `_sanitize_filename`; `now` is the wall clock. -/
def sanitizeBase (name : String) (now : Nat) : String :=
  if (sanitizeCore name).data = [] then "document_" ++ natStr now
  else sanitizeCore name

/-- `_sanitize_filename(name)` from `crawler.py`.  The wall clock used by the
`document_{unixtime}` fallback is the extra parameter `now`
(`int(time.time())`). -/
def sanitizeFilename (name : String) (now : Nat) : String :=
  if lowerEndsWithPdf (sanitizeBase name now) then sanitizeBase name now
  else sanitizeBase name now ++ ".pdf"

end Crawler

open Crawler

/-- Sanity check: a well-formed small PDF byte string validates. -/
example : isValidPdf (pdfMagic ++ [0x0A] ++ eofMarker) = true := by decide

example : isValidPdf [] = false := by decide

example : extractPdfFromResponse ([0x44, 0x65] ++ pdfMagic ++ [0x31]) =
    some (pdfMagic ++ [0x31]) := by decide

/-- **C3.** `_is_valid_pdf(content)` returns true iff `content` starts with
`%PDF-` and `%%EOF` occurs within the last 1024 bytes of `content`; in
particular it returns false for every input shorter than 5 bytes (hence for
empty input). -/
theorem C3_isValidPdf_iff (content : List Nat) :
    (isValidPdf content = true ↔
      pdfMagic <+: content ∧ eofMarker <:+: lastBytes 1024 content)
    ∧ (content.length < 5 → isValidPdf content = false) := by
  have hfalse : content.length < 5 → isValidPdf content = false := by
    intro hlen
    simp [isValidPdf, hlen]
  refine ⟨?_, hfalse⟩
  by_cases hlen : content.length < 5
  · rw [hfalse hlen]
    constructor
    · intro h
      exact absurd h (by simp)
    · rintro ⟨h, -⟩
      have h6 := h.length_le
      have h5 : pdfMagic.length = 5 := by decide
      rw [h5] at h6
      exact absurd h6 (by omega)
  · have hempty : content.isEmpty = false := by
      rcases content with _ | _
      · simp at hlen
      · rfl
    unfold isValidPdf
    simp [hempty, hlen, List.isPrefixOf_iff_prefix, containsSeq_iff]

/-- Witness for C3 at a concrete short input. -/
theorem C3_isValidPdf_iff_witness :
    ([0x25].length < 5) ∧ isValidPdf [0x25] = false :=
  ⟨by decide, (C3_isValidPdf_iff [0x25]).2 (by decide)⟩

/-! ### Properties of `_sanitize_filename` (claim C6) -/

example : sanitizeFilename "My Doc: draft?.pdf" 0 = "My_Doc_draft.pdf" := by decide

example : sanitizeFilename "" 1700000000 = "document_1700000000.pdf" := by decide

theorem mem_collapseRuns {c : Char} :
    ∀ (prev : Bool) (l : List Char), c ∈ collapseRuns prev l → c = '_' ∨ c ∈ l := by
  intro prev l
  induction l generalizing prev with
  | nil => simp [collapseRuns]
  | cons a rest ih =>
    simp only [collapseRuns]
    cases hb : (a = ' ' || a = '_') with
    | true =>
      cases prev with
      | true =>
        intro hmem
        rcases ih true hmem with h' | h'
        · exact Or.inl h'
        · exact Or.inr (List.mem_cons_of_mem a h')
      | false =>
        intro hmem
        rcases List.mem_cons.mp hmem with h' | h'
        · exact Or.inl h'
        · rcases ih true h' with h'' | h''
          · exact Or.inl h''
          · exact Or.inr (List.mem_cons_of_mem a h'')
    | false =>
      intro hmem
      rcases List.mem_cons.mp hmem with h' | h'
      · exact Or.inr (h' ▸ List.mem_cons_self a rest)
      · rcases ih false h' with h'' | h''
        · exact Or.inl h''
        · exact Or.inr (List.mem_cons_of_mem a h'')

theorem mem_stripEnds {c : Char} {l : List Char} (h : c ∈ stripEnds l) : c ∈ l := by
  unfold stripEnds at h
  rw [List.mem_reverse] at h
  have h1 := List.dropWhile_subset _ h
  rw [List.mem_reverse] at h1
  exact List.dropWhile_subset _ h1

theorem replaceForbidden_all (s : String) {c : Char}
    (h : c ∈ (replaceForbidden s).data) : forbiddenChar c = false := by
  unfold replaceForbidden at h
  simp only [List.mem_map] at h
  obtain ⟨b, ⟨a, ha, hab⟩, hbc⟩ := h
  by_cases hws : (b = '\n' || b = '\r' || b = '\t') = true
  · have hc : c = '_' := by
      rw [← hbc]
      simp [hws]
    subst hc
    decide
  · have hc : c = b := by
      rw [← hbc]
      simp [hws]
    subst hc
    by_cases hfa : forbiddenChar a = true
    · have hb : c = '_' := by
        rw [← hab]
        simp [hfa]
      subst hb
      decide
    · have hb : c = a := by
        rw [← hab]
        simp [hfa]
      subst hb
      simp only [Bool.not_eq_true] at hfa
      exact hfa

theorem sanitizeCore_all (name : String) {c : Char}
    (h : c ∈ (sanitizeCore name).data) : forbiddenChar c = false := by
  unfold sanitizeCore at h
  have h1 := List.mem_of_mem_take h
  have h2 := mem_stripEnds h1
  rcases mem_collapseRuns false _ h2 with h3 | h3
  · subst h3
    decide
  · exact replaceForbidden_all _ h3

theorem sanitizeCore_length (name : String) :
    (sanitizeCore name).data.length ≤ 200 := by
  unfold sanitizeCore
  simp [List.length_take_le]

theorem natDigits_all_digits {fuel : Nat} :
    ∀ {n : Nat} {c : Char}, c ∈ natDigits fuel n → ∃ d, d < 10 ∧ c = digitChar d := by
  induction fuel with
  | zero => intro n c h; simp [natDigits] at h
  | succ fuel ih =>
    intro n c h
    by_cases h10 : n < 10
    · simp only [natDigits, h10, if_true, List.mem_singleton] at h
      exact ⟨n, h10, h⟩
    · simp only [natDigits, h10, if_false, List.mem_append,
        List.mem_singleton] at h
      rcases h with h | h
      · exact ih h
      · exact ⟨n % 10, Nat.mod_lt _ (by omega), h⟩

theorem digitChar_not_forbidden {d : Nat} (h : d < 10) :
    forbiddenChar (digitChar d) = false := by
  interval_cases d <;> decide

theorem digitChar_toLower_ne_f {d : Nat} (h : d < 10) :
    Char.toLower (digitChar d) ≠ 'f' := by
  interval_cases d <;> decide

theorem natDigits_concat (fuel n : Nat) :
    ∃ t, natDigits (fuel + 1) n = t ++ [digitChar (n % 10)] := by
  by_cases h10 : n < 10
  · refine ⟨[], ?_⟩
    simp [natDigits, h10, Nat.mod_eq_of_lt h10]
  · exact ⟨natDigits fuel (n / 10), by simp [natDigits, h10]⟩

theorem lowerEndsWithPdf_append (x : String) :
    lowerEndsWithPdf (x ++ ".pdf") = true := by
  unfold lowerEndsWithPdf strEndsWith strToLower
  rw [List.isSuffixOf_iff_suffix]
  show (".pdf".data : List Char) <:+ ((x ++ ".pdf").data.map Char.toLower)
  rw [String.data_append, List.map_append]
  have : (".pdf".data.map Char.toLower) = ".pdf".data := by decide
  rw [this]
  exact List.suffix_append _ _

theorem fallback_not_pdf (now : Nat) :
    lowerEndsWithPdf ("document_" ++ natStr now) = false := by
  by_contra hcon
  rw [Bool.not_eq_false] at hcon
  unfold lowerEndsWithPdf strEndsWith strToLower at hcon
  rw [List.isSuffixOf_iff_suffix] at hcon
  obtain ⟨t, ht⟩ := hcon
  have ht2 : (("document_" ++ natStr now).data.map Char.toLower) =
      t ++ ".pdf".data := ht.symm
  obtain ⟨u, hu⟩ := natDigits_concat now now
  have hdata : ("document_" ++ natStr now).data =
      ("document_".data ++ u) ++ [digitChar (now % 10)] := by
    rw [String.data_append]
    show "document_".data ++ (natDigits (now + 1) now) = _
    rw [hu, List.append_assoc]
  have hlast : (("document_" ++ natStr now).data.map Char.toLower).getLast? =
      some (Char.toLower (digitChar (now % 10))) := by
    rw [hdata, List.map_append]
    exact List.getLast?_concat _
  have hlast' : (("document_" ++ natStr now).data.map Char.toLower).getLast? =
      some 'f' := by
    rw [ht2]
    have habc : (t ++ ".pdf".data) = (t ++ ['.', 'p', 'd']) ++ ['f'] := by
      simp
    rw [habc]
    exact List.getLast?_concat _
  rw [hlast] at hlast'
  have hmod : now % 10 < 10 := Nat.mod_lt _ (by omega)
  exact digitChar_toLower_ne_f hmod (Option.some.inj hlast')

theorem sanitizeBase_all (name : String) (now : Nat) {c : Char}
    (h : c ∈ (sanitizeBase name now).data) : forbiddenChar c = false := by
  unfold sanitizeBase at h
  by_cases hemp : (sanitizeCore name).data = []
  · rw [if_pos hemp] at h
    rw [String.data_append] at h
    rcases List.mem_append.mp h with h1 | h1
    · have hd : ∀ x ∈ ("document_".data : List Char), forbiddenChar x = false := by
        decide
      exact hd c h1
    · obtain ⟨d, hd, hcd⟩ := natDigits_all_digits h1
      subst hcd
      exact digitChar_not_forbidden hd
  · rw [if_neg hemp] at h
    exact sanitizeCore_all name h

theorem sanitizeBase_length (name : String) (now : Nat) (hnow : now < 10 ^ 10) :
    (sanitizeBase name now).data.length ≤ 200 := by
  unfold sanitizeBase
  by_cases hemp : (sanitizeCore name).data = []
  · rw [if_pos hemp, String.data_append, List.length_append]
    have hd : (natDigits (now + 1) now).length ≤ 10 :=
      natDigits_length_le (now + 1) now 10 hnow (by omega)
    have h9 : ("document_".data : List Char).length = 9 := by decide
    show ("document_".data : List Char).length + (natDigits (now + 1) now).length ≤ 200
    omega
  · rw [if_neg hemp]
    exact sanitizeCore_length name

/-- **C6 (amended).** The sanitizer always returns a name ending in `.pdf`
case-insensitively, with no character from the forbidden set
`<>:"/\|?*` and no C0 control character, of length at most 204; the `.pdf`
suffix is appended only when the sanitized name does not already end in
`.pdf` case-insensitively (so an input such as `a.pdf.pdf.pdf` yields a name
with a repeated suffix), and an empty sanitized name falls back to
`document_{unixtime}`. -/
theorem C6_sanitizeFilename_amended (name : String) (now : Nat)
    (hnow : now < 10 ^ 10) :
    lowerEndsWithPdf (sanitizeFilename name now) = true ∧
    (sanitizeFilename name now).data.all (fun c => !(forbiddenChar c)) = true ∧
    (sanitizeFilename name now).data.length ≤ 204 ∧
    sanitizeFilename "" now = "document_" ++ natStr now ++ ".pdf" := by
  have hall : (sanitizeBase name now).data.all (fun c => !(forbiddenChar c)) = true := by
    rw [List.all_eq_true]
    intro c hc
    rw [Bool.not_eq_true']
    exact sanitizeBase_all name now hc
  have hlen := sanitizeBase_length name now hnow
  have hfallback : sanitizeFilename "" now = "document_" ++ natStr now ++ ".pdf" := by
    have hbase : sanitizeBase "" now = "document_" ++ natStr now := by
      have : (sanitizeCore "").data = [] := by decide
      unfold sanitizeBase
      rw [if_pos this]
    unfold sanitizeFilename
    rw [hbase, if_neg (by rw [fallback_not_pdf now]; exact Bool.false_ne_true)]
  refine ⟨?_, ?_, ?_, hfallback⟩
  · unfold sanitizeFilename
    by_cases hpdf : lowerEndsWithPdf (sanitizeBase name now) = true
    · rw [if_pos hpdf]
      exact hpdf
    · rw [if_neg hpdf]
      exact lowerEndsWithPdf_append _
  · unfold sanitizeFilename
    by_cases hpdf : lowerEndsWithPdf (sanitizeBase name now) = true
    · rw [if_pos hpdf]
      exact hall
    · rw [if_neg hpdf]
      rw [String.data_append, List.all_append, hall]
      decide
  · unfold sanitizeFilename
    by_cases hpdf : lowerEndsWithPdf (sanitizeBase name now) = true
    · rw [if_pos hpdf]
      omega
    · rw [if_neg hpdf]
      rw [String.data_append, List.length_append]
      have h4 : (".pdf".data : List Char).length = 4 := by decide
      omega

/-- Witness for C6 (amended) at a concrete input. -/
theorem C6_sanitizeFilename_amended_witness :
    lowerEndsWithPdf (sanitizeFilename "report" 1700000000) = true ∧
    (sanitizeFilename "report" 1700000000).data.all
      (fun c => !(forbiddenChar c)) = true ∧
    (sanitizeFilename "report" 1700000000).data.length ≤ 204 ∧
    sanitizeFilename "" 1700000000 = "document_" ++ natStr 1700000000 ++ ".pdf" :=
  C6_sanitizeFilename_amended "report" 1700000000 (by norm_num)

/-- **C6 (counterexample).** As stated, the claim fails: the sanitizer does
not re-append `.pdf` unconditionally and does not guarantee exactly one
`.pdf` suffix — on input `a.pdf.pdf.pdf` it returns `a.pdf.pdf`, which ends
in two `.pdf` suffixes (the appended-suffix step was skipped because the
sanitized name already ended in `.pdf`). -/
theorem C6_sanitizeFilename_counterexample :
    sanitizeFilename "a.pdf.pdf.pdf" 0 = "a.pdf.pdf" ∧
    strEndsWith (sanitizeFilename "a.pdf.pdf.pdf" 0) ".pdf" = true ∧
    strEndsWith
      ⟨(sanitizeFilename "a.pdf.pdf.pdf" 0).data.take
        ((sanitizeFilename "a.pdf.pdf.pdf" 0).data.length - 4)⟩ ".pdf" = true := by
  refine ⟨by decide, by decide, by decide⟩

/-! ## URL parsing (`urllib.parse.urlparse`, restricted to the crawler's uses)

The crawler reads `scheme`, `netloc`, `hostname`, `path` and `query` of
parsed URLs.  This model follows `urlparse` for those components: fragment
after the first `#` is split off, a scheme is recognised before the first `:`
when it is alphanumeric(+`+-.`)-shaped and starts with a letter, a netloc
follows `//` up to the next `/` or `?`, and the query follows the first `?`.
IPv6 bracket syntax and userinfo ports are outside the crawler's inputs and
are handled like `urlparse` for the `@`/`:` conventions. -/

structure UrlParts where
  scheme : String
  netloc : String
  path : String
  query : String
deriving DecidableEq

/-- Split a character list at the first occurrence of `sep`. -/
def splitOnce (sep : Char) : List Char → Option (List Char × List Char)
  | [] => none
  | c :: rest =>
    if c = sep then some ([], rest)
    else (splitOnce sep rest).map fun p => (c :: p.1, p.2)

/-- Characters allowed in a URL scheme after the first letter. -/
def isSchemeChar (c : Char) : Bool :=
  c.isAlphanum || c = '+' || c = '-' || c = '.'

def pyUrlparse (url : String) : UrlParts :=
  let cs := match splitOnce '#' url.data with
    | some p => p.1
    | none => url.data
  let schemeRest : String × List Char := match splitOnce ':' cs with
    | some p =>
      if p.1 ≠ [] ∧ (match p.1 with
          | c :: _ => c.isAlpha
          | [] => false) = true ∧ p.1.all isSchemeChar then
        (⟨p.1.map Char.toLower⟩, p.2)
      else ("", cs)
    | none => ("", cs)
  let netlocRest : List Char × List Char :=
    if schemeRest.2.take 2 = ['/', '/'] then
      let after := schemeRest.2.drop 2
      (after.takeWhile fun c => c ≠ '/' && c ≠ '?',
        after.dropWhile fun c => c ≠ '/' && c ≠ '?')
    else ([], schemeRest.2)
  let pathQuery : List Char × List Char := match splitOnce '?' netlocRest.2 with
    | some p => p
    | none => (netlocRest.2, [])
  { scheme := schemeRest.1, netloc := ⟨netlocRest.1⟩,
    path := ⟨pathQuery.1⟩, query := ⟨pathQuery.2⟩ }

/-- `parsed.hostname` (lower-cased, port and userinfo stripped), with `""`
standing for Python's `None` on an empty host. -/
def urlHostname (p : UrlParts) : String :=
  let afterAt := ((p.netloc.data.reverse.takeWhile fun c => c ≠ '@')).reverse
  ⟨(afterAt.takeWhile fun c => c ≠ ':').map Char.toLower⟩

example : pyUrlparse "https://Example.MIL:8443/a/b.PDF?q=1" =
    { scheme := "https", netloc := "Example.MIL:8443", path := "/a/b.PDF",
      query := "q=1" } := by decide

example : urlHostname (pyUrlparse "https://Example.MIL:8443/a/b.PDF?q=1") =
    "example.mil" := by decide

example : pyUrlparse "mailto:someone" =
    { scheme := "mailto", netloc := "", path := "someone", query := "" } := by
  decide

/-! ## Percent-encoding (`urllib.parse.quote` with `safe=''`) -/

/-- UTF-8 encoding of one code point. -/
def charUtf8 (c : Char) : List Nat :=
  let n := c.toNat
  if n < 0x80 then [n]
  else if n < 0x800 then [0xC0 + n / 0x40, 0x80 + n % 0x40]
  else if n < 0x10000 then
    [0xE0 + n / 0x1000, 0x80 + (n / 0x40) % 0x40, 0x80 + n % 0x40]
  else
    [0xF0 + n / 0x40000, 0x80 + (n / 0x1000) % 0x40, 0x80 + (n / 0x40) % 0x40,
      0x80 + n % 0x40]

/-- `quote`'s always-safe bytes: ASCII letters, digits, `_.-~`. -/
def alwaysSafeByte (b : Nat) : Bool :=
  (0x41 ≤ b && b ≤ 0x5A) || (0x61 ≤ b && b ≤ 0x7A) ||
    (0x30 ≤ b && b ≤ 0x39) || b = 0x5F || b = 0x2E || b = 0x2D || b = 0x7E

/-- Uppercase hexadecimal digit, as `quote` emits. -/
def hexDigitChar (n : Nat) : Char :=
  if n < 10 then digitChar n else Char.ofNat (Char.toNat 'A' + (n - 10))

def quoteByte (b : Nat) : List Char :=
  if alwaysSafeByte b then [Char.ofNat b]
  else ['%', hexDigitChar (b / 16), hexDigitChar (b % 16)]

/-- `urllib.parse.quote(s, safe='')`: percent-encode every byte of the UTF-8
encoding except the always-safe ones. -/
def pyQuote (s : String) : String :=
  ⟨(s.data.flatMap charUtf8).flatMap quoteByte⟩

example : pyQuote "Policy/Laptop" = "Policy%2FLaptop" := by decide

example : pyQuote "DDGIT Policies/Laptop_Policy" =
    "DDGIT%20Policies%2FLaptop_Policy" := by decide

/-! ## The onclick URL transform (`download_onclick_watermark`, lines 421-430) -/

/-- Python `s.startswith(pre)`. -/
def strStartsWith (s pre : String) : Bool := pre.data.isPrefixOf s.data

/-- The watermark URL built by `download_onclick_watermark`: strip a leading
`pdf/`, strip a trailing `.pdf`, percent-encode with no safe characters, and
attach to the source page's scheme and netloc. -/
def onclickWatermarkUrl (pdfPath baseUrl : String) : String :=
  let fileName := if strStartsWith pdfPath "pdf/" then (⟨pdfPath.data.drop 4⟩ : String)
    else pdfPath
  let fileName : String := if strEndsWith fileName ".pdf" then
      ⟨fileName.data.take (fileName.data.length - 4)⟩
    else fileName
  let encoded := pyQuote fileName
  let parsed := pyUrlparse baseUrl
  parsed.scheme ++ "://" ++ parsed.netloc ++ "/watermark/download.php?show=" ++
    encoded

example : onclickWatermarkUrl "pdf/Policy/Laptop.pdf" "https://example.mil/docs" =
    "https://example.mil/watermark/download.php?show=Policy%2FLaptop" := by
  decide

/-! ## The fetch pipeline (`_get_with_ssl_fallback`, `_request_with_retries`)

An HTTP response carries the fields the crawler reads.  One
`_SESSION.get` call either returns a response object (whatever its status),
raises `requests.exceptions.SSLError`, or raises some other exception; the
session is modelled as an oracle indexed by the call number within one
`_get_with_ssl_fallback` invocation and by the `verify` flag passed. -/

structure HttpResponse where
  statusCode : Nat
  content : List Nat
  contentType : String
  contentDisp : String
deriving DecidableEq

inductive GetOutcome where
  | ok (r : HttpResponse)
  | sslError
  | otherError
deriving DecidableEq

/-- `_get_with_ssl_fallback(url, ...)` from `crawler.py`: the first session
call uses the session's verify mode (`_SESSION.verify = VERIFY_SSL`); on
`SSLError`, when `VERIFY_SSL` is false the function returns `None`, otherwise
it retries exactly once with `verify=False` and returns that response or
`None`; any other exception yields `None`.  Returns the result together with
the trace of `verify` flags used, one per session call made. -/
def getWithSslFallback (verifySsl : Bool) (session : Nat → Bool → GetOutcome) :
    Option HttpResponse × List Bool :=
  match session 0 verifySsl with
  | .ok r => (some r, [verifySsl])
  | .sslError =>
    if !verifySsl then (none, [verifySsl])
    else
      match session 1 false with
      | .ok r => (some r, [verifySsl, false])
      | _ => (none, [verifySsl, false])
  | .otherError => (none, [verifySsl])

/-- Does an optional response exist and carry HTTP status 200? -/
def isOk200 : Option HttpResponse → Bool
  | some r => r.statusCode = 200
  | none => false

structure RetryResult where
  response : Option HttpResponse
  attemptsMade : Nat
  sleeps : List Nat
deriving DecidableEq

/-- The loop body of `_request_with_retries`: process attempts numbered
`attempt, attempt+1, ...` with `remaining + ...` counting how many attempts
are left including the current one (`0` means the loop is over). `fetch k` is
the result of `_get_with_ssl_fallback` on attempt `k`. -/
def retryGo (fetch : Nat → Option HttpResponse) (delay : Nat) :
    Nat → Nat → RetryResult
  | _, 0 => ⟨none, 0, []⟩
  | attempt, remaining + 1 =>
    if isOk200 (fetch attempt) then ⟨fetch attempt, 1, []⟩
    else if remaining = 0 then ⟨none, 1, []⟩
    else
      let r' := retryGo fetch delay (attempt + 1) remaining
      ⟨r'.response, r'.attemptsMade + 1, delay :: r'.sleeps⟩

/-- `_request_with_retries(url, retries, delay)` from `crawler.py`:
`for attempt in range(retries)`, return the response as soon as one exists
with status 200, sleeping `delay` seconds between consecutive attempts, and
`None` once all attempts are exhausted. -/
def requestWithRetries (fetch : Nat → Option HttpResponse) (retries delay : Nat) :
    RetryResult :=
  retryGo fetch delay 0 retries

/-- A concrete 200 response used in witnesses and counterexamples. -/
def sampleResponse : HttpResponse :=
  ⟨200, pdfMagic ++ eofMarker, "application/pdf", ""⟩

/-- A session whose first call raises `SSLError` and whose second call (made
with `verify=False` by the fallback, when it happens) returns a 200 response. -/
def sslOnceSession : Nat → Bool → GetOutcome :=
  fun i _ => if i = 0 then .sslError else .ok sampleResponse

/-- **C2 (counterexample).** The claim has the configuration backwards.  With
global SSL verification disabled, a TLS failure is answered by `None` after a
single call — no unverified retry happens even though it would have
succeeded; with verification enabled, the fetcher does retry once with
`verify=False` and returns the retried response. -/
theorem C2_sslFallback_counterexample :
    sslOnceSession 0 false = .sslError ∧
    sslOnceSession 1 false = .ok sampleResponse ∧
    getWithSslFallback false sslOnceSession = (none, [false]) ∧
    getWithSslFallback true sslOnceSession = (some sampleResponse, [true, false]) := by
  refine ⟨by decide, by decide, by decide, by decide⟩

/-- **C2 (amended).** On a TLS verification failure of the first GET: when
global SSL verification is *enabled*, the fetcher retries exactly once with
verification disabled and returns that retry's response when it yields one;
when verification is *disabled*, the TLS error is treated as a failure and no
further call is made. -/
theorem C2_sslFallback_amended (session : Nat → Bool → GetOutcome) :
    (session 0 true = .sslError →
      (getWithSslFallback true session).2 = [true, false] ∧
      ∀ r, session 1 false = .ok r →
        (getWithSslFallback true session).1 = some r) ∧
    (session 0 false = .sslError →
      getWithSslFallback false session = (none, [false])) := by
  constructor
  · intro h
    unfold getWithSslFallback
    rw [h]
    constructor
    · cases h2 : session 1 false <;> simp [h2]
    · intro r hr
      rw [hr]
      simp
  · intro h
    unfold getWithSslFallback
    rw [h]
    simp

/-- Witness for C2 (amended) at the concrete session above. -/
theorem C2_sslFallback_amended_witness :
    (getWithSslFallback true sslOnceSession).2 = [true, false] ∧
    (getWithSslFallback true sslOnceSession).1 = some sampleResponse ∧
    getWithSslFallback false sslOnceSession = (none, [false]) :=
  ⟨((C2_sslFallback_amended sslOnceSession).1 (by decide)).1,
    ((C2_sslFallback_amended sslOnceSession).1 (by decide)).2 sampleResponse
      (by decide),
    (C2_sslFallback_amended sslOnceSession).2 (by decide)⟩

/-! ### Properties of `_request_with_retries` (claim C7) -/

theorem retryGo_attempts_le (fetch : Nat → Option HttpResponse) (delay : Nat) :
    ∀ remaining attempt,
      (retryGo fetch delay attempt remaining).attemptsMade ≤ remaining := by
  intro remaining
  induction remaining with
  | zero => intro attempt; simp [retryGo]
  | succ n ih =>
    intro attempt
    unfold retryGo
    by_cases h : isOk200 (fetch attempt) = true
    · simp [h]
    · cases n with
      | zero => simp [h]
      | succ m =>
        rw [if_neg h, if_neg (Nat.succ_ne_zero m)]
        show (retryGo fetch delay (attempt + 1) (m + 1)).attemptsMade + 1 ≤ m + 1 + 1
        have := ih (attempt + 1)
        omega

theorem retryGo_all_fail (fetch : Nat → Option HttpResponse) (delay : Nat) :
    ∀ remaining attempt,
      (∀ k, attempt ≤ k → k < attempt + remaining → isOk200 (fetch k) = false) →
      retryGo fetch delay attempt remaining =
        ⟨none, remaining, List.replicate (remaining - 1) delay⟩ := by
  intro remaining
  induction remaining with
  | zero => intro attempt _; simp [retryGo]
  | succ n ih =>
    intro attempt hfail
    unfold retryGo
    have h0 : isOk200 (fetch attempt) = false :=
      hfail attempt le_rfl (by omega)
    cases n with
    | zero => simp [h0]
    | succ m =>
      simp only [h0, Bool.false_eq_true, if_false, Nat.succ_ne_zero]
      rw [ih (attempt + 1) (fun k hk1 hk2 => hfail k (by omega) (by omega))]
      simp [List.replicate_succ]

theorem retryGo_first_success (fetch : Nat → Option HttpResponse) (delay : Nat) :
    ∀ remaining attempt k,
      k < remaining →
      isOk200 (fetch (attempt + k)) = true →
      (∀ j, j < k → isOk200 (fetch (attempt + j)) = false) →
      retryGo fetch delay attempt remaining =
        ⟨fetch (attempt + k), k + 1, List.replicate k delay⟩ := by
  intro remaining
  induction remaining with
  | zero => intro attempt k hk; omega
  | succ n ih =>
    intro attempt k hk hok hbefore
    unfold retryGo
    cases k with
    | zero =>
      have h : isOk200 (fetch attempt) = true := by simpa using hok
      simp [h]
    | succ m =>
      have h0 : isOk200 (fetch attempt) = false := by
        simpa using hbefore 0 (by omega)
      have hn : n ≠ 0 := by omega
      simp only [h0, Bool.false_eq_true, if_false, hn]
      have hok' : isOk200 (fetch (attempt + 1 + m)) = true := by
        rw [show attempt + 1 + m = attempt + (m + 1) by omega]
        exact hok
      have hbefore' : ∀ j, j < m → isOk200 (fetch (attempt + 1 + j)) = false := by
        intro j hj
        rw [show attempt + 1 + j = attempt + (j + 1) by omega]
        exact hbefore (j + 1) (by omega)
      rw [ih (attempt + 1) m (by omega) hok' hbefore']
      have harg : attempt + 1 + m = attempt + (m + 1) := by omega
      simp [harg, List.replicate_succ]

/-- **C7.** `_request_with_retries` makes at most `retries` attempts; when
attempt `k` (zero-based, `k < retries`) is the first to return an HTTP 200
response, that response is returned after exactly `k + 1` attempts with `k`
sleeps of `delay` seconds between consecutive attempts (so a success on the
last permitted attempt is still returned); when no attempt among the
`retries` permitted ones yields a 200 response, the result is a failure after
all `retries` attempts and `retries - 1` sleeps of `delay` seconds. -/
theorem C7_requestWithRetries (fetch : Nat → Option HttpResponse)
    (retries delay : Nat) :
    (requestWithRetries fetch retries delay).attemptsMade ≤ retries ∧
    ((∀ k, k < retries → isOk200 (fetch k) = false) →
      requestWithRetries fetch retries delay =
        ⟨none, retries, List.replicate (retries - 1) delay⟩) ∧
    (∀ k, k < retries → isOk200 (fetch k) = true →
      (∀ j, j < k → isOk200 (fetch j) = false) →
      requestWithRetries fetch retries delay =
        ⟨fetch k, k + 1, List.replicate k delay⟩) := by
  refine ⟨retryGo_attempts_le fetch delay retries 0, ?_, ?_⟩
  · intro hfail
    exact retryGo_all_fail fetch delay retries 0
      (fun k _ hk => hfail k (by omega))
  · intro k hk hok hbefore
    have h := retryGo_first_success fetch delay retries 0 k hk
      (by simpa using hok) (fun j hj => by simpa using hbefore j hj)
    simpa using h

/-- A fetch sequence that fails on attempts 0 and 1 and succeeds with a 200
response on attempt 2. -/
def lastTryFetch : Nat → Option HttpResponse :=
  fun k => if k < 2 then none else some sampleResponse

/-- Witness for C7: with `retries = 3`, a URL that succeeds only on the last
permitted attempt is still returned, after two `delay`-second sleeps. -/
theorem C7_requestWithRetries_witness :
    requestWithRetries lastTryFetch 3 5 = ⟨some sampleResponse, 3, [5, 5]⟩ := by
  have h := (C7_requestWithRetries lastTryFetch 3 5).2.2 2 (by decide) (by decide)
    (fun j hj => by interval_cases j <;> decide)
  rw [h]
  decide

/-! ## Target paths and downloaders

The filesystem is modelled as the list `fs` of paths that exist; writing a
file appends its path.  `sha1hex10` models
`hashlib.sha1(url.encode("utf-8")).hexdigest()[:10]`, `md5hex8` models
`hashlib.md5(url.encode()).hexdigest()[:8]`, `mtimeIso` models
`datetime.utcfromtimestamp(path.stat().st_mtime).isoformat() + "Z"`, and
`nowIso` models `datetime.utcnow().isoformat() + "Z"`; `net url referer`
models the result of `_get_with_ssl_fallback(url, ..., referer=referer)`. -/

/-- `os.path.basename` (POSIX): the part after the last `/`. -/
def basename (s : String) : String :=
  ⟨(s.data.reverse.takeWhile fun c => c ≠ '/').reverse⟩

/-- `os.path.splitext`: split off the extension at the last dot, provided a
non-dot character precedes it. -/
def splitext (s : String) : String × String :=
  let cs := s.data
  match cs.reverse.findIdx? (fun c => c = '.') with
  | none => (s, "")
  | some rid =>
    let sep := cs.length - 1 - rid
    if (cs.take sep).any (fun c => c ≠ '.') then (⟨cs.take sep⟩, ⟨cs.drop sep⟩)
    else (s, "")

example : splitext "a.pdf" = ("a", ".pdf") := by decide
example : splitext ".pdf" = (".pdf", "") := by decide
example : splitext "a.b.c" = ("a.b", ".c") := by decide

/-- `_unique_target_path(folder, pdf_name, url)` from `crawler.py`: the plain
`folder/pdf_name` when it does not yet exist, else the hash-disambiguated
`folder/{stem}_{sha1(url)[:10]}{suffix or '.pdf'}`. -/
def uniqueTargetPath (fs : List String) (sha1hex10 : String → String)
    (folder pdfName url : String) : String :=
  let candidate := folder ++ "/" ++ pdfName
  if fs.contains candidate then
    let se := splitext pdfName
    folder ++ "/" ++ se.1 ++ "_" ++ sha1hex10 url ++
      (if se.2 = "" then ".pdf" else se.2)
  else candidate

/-- A `DownloadRecord` as built by the downloaders (the `source_page` and
`method` fields are attached by the orchestrator afterwards). -/
structure DlRecord where
  url : String
  path : String
  filename : String
  downloadedAt : String
deriving DecidableEq

/-- Result of one downloader invocation: the optional record, the URL of the
network GET that was issued (if any), and the filesystem afterwards. -/
structure DlResult where
  record : Option DlRecord
  requested : Option String
  fs : List String
deriving DecidableEq

/-- `os.path.basename(parsed.path) or "downloaded.pdf"` in
`download_direct_pdf`. -/
def directPdfName (pdfUrl : String) : String :=
  if (basename (pyUrlparse pdfUrl).path).data = [] then "downloaded.pdf"
  else basename (pyUrlparse pdfUrl).path

/-- `os.path.basename(pdf_path) or "downloaded.pdf"` in
`download_onclick_watermark`. -/
def onclickPdfName (pdfPath : String) : String :=
  if (basename pdfPath).data = [] then "downloaded.pdf" else basename pdfPath

/-- `download_direct_pdf(pdf_url, folder, referer)` from `crawler.py`. -/
def downloadDirectPdf (fs : List String) (sha1hex10 mtimeIso : String → String)
    (nowIso : String) (net : String → String → Option HttpResponse)
    (pdfUrl folder referer : String) : DlResult :=
  let pdfName := directPdfName pdfUrl
  let target := uniqueTargetPath fs sha1hex10 folder pdfName pdfUrl
  if fs.contains target then
    { record := some ⟨pdfUrl, target, basename target, mtimeIso target⟩,
      requested := none, fs := fs }
  else
    match net pdfUrl referer with
    | none => { record := none, requested := some pdfUrl, fs := fs }
    | some resp =>
      if resp.statusCode ≠ 200 then
        { record := none, requested := some pdfUrl, fs := fs }
      else
        match extractPdfFromResponse resp.content with
        | none => { record := none, requested := some pdfUrl, fs := fs }
        | some pdfContent =>
          if pdfContent.isEmpty || !(isValidPdf pdfContent) then
            { record := none, requested := some pdfUrl, fs := fs }
          else
            { record := some ⟨pdfUrl, target, basename target, nowIso⟩,
              requested := some pdfUrl, fs := fs ++ [target] }

/-- `download_onclick_watermark(pdf_path, folder, base_url)` from
`crawler.py`: short-circuit on an existing target, else fetch the transformed
watermark URL built against the source page's host. -/
def downloadOnclickWatermark (fs : List String)
    (sha1hex10 mtimeIso : String → String) (nowIso : String)
    (net : String → String → Option HttpResponse)
    (pdfPath folder baseUrl : String) : DlResult :=
  let pdfName := onclickPdfName pdfPath
  let target := uniqueTargetPath fs sha1hex10 folder pdfName pdfPath
  if fs.contains target then
    { record := some ⟨pdfPath, target, basename target, mtimeIso target⟩,
      requested := none, fs := fs }
  else
    let watermarkUrl := onclickWatermarkUrl pdfPath baseUrl
    match net watermarkUrl baseUrl with
    | none => { record := none, requested := some watermarkUrl, fs := fs }
    | some resp =>
      if resp.statusCode ≠ 200 then
        { record := none, requested := some watermarkUrl, fs := fs }
      else
        match extractPdfFromResponse resp.content with
        | none => { record := none, requested := some watermarkUrl, fs := fs }
        | some pdfContent =>
          if pdfContent.isEmpty || !(isValidPdf pdfContent) then
            { record := none, requested := some watermarkUrl, fs := fs }
          else
            { record := some ⟨pdfPath, target, basename target, nowIso⟩,
              requested := some watermarkUrl, fs := fs ++ [target] }

/-! ### `_extract_pdf_name_from_url` and the watermark-href downloader -/

/-- `urllib.parse.unquote_plus`: `+` becomes a space, then percent-decode. -/
def unquotePlus (s : String) : String :=
  pyUnquote ⟨s.data.map fun c => if c = '+' then ' ' else c⟩

/-- `urllib.parse.parse_qsl(query)` with default arguments: split on `&`,
drop empty fields, fields without `=` and fields with an empty value, and
plus/percent-decode names and values.  `parse_qs` groups these pairs by name;
the crawler only reads the first value of a name, which is the first pair
here. -/
def parseQsl (query : String) : List (String × String) :=
  (query.data.splitOn '&').filterMap fun field =>
    if field = [] then none
    else
      match splitOnce '=' field with
      | none => none
      | some p =>
        if p.2 = [] then none
        else some (unquotePlus ⟨p.1⟩, unquotePlus ⟨p.2⟩)

/-- `params[key][0]` when `key` is present. -/
def firstParam (pairs : List (String × String)) (key : String) : Option String :=
  (pairs.find? fun p => p.1 == key).map (·.2)

example : parseQsl "show=A%20B&x=&y" = [("show", "A B")] := by decide

/-- `_extract_pdf_name_from_url(url)` from `crawler.py`: take the `show`
query parameter (else `file`/`document`/`pdf`/`name`/`title` in order),
unquote and sanitize it and ensure a `.pdf` ending; fall back to
`watermark_{md5(url)[:8]}.pdf`. -/
def extractPdfNameFromUrl (md5hex8 : String → String) (now : Nat)
    (url : String) : String :=
  let parsed := pyUrlparse url
  let pairs := parseQsl parsed.query
  let tryKey : String → Option String := fun key =>
    match firstParam pairs key with
    | some name =>
      if name.data = [] then none
      else
        let sanitized := sanitizeFilename (pyUnquote name) now
        some (if !(lowerEndsWithPdf sanitized) then sanitized ++ ".pdf"
          else sanitized)
    | none => none
  match ["show", "file", "document", "pdf", "name", "title"].findSome? tryKey with
  | some r => r
  | none => "watermark_" ++ md5hex8 url ++ ".pdf"

/-- `bytes.lower()`: ASCII lower-casing of each byte. -/
def bytesLower (l : List Nat) : List Nat :=
  l.map fun b => if 0x41 ≤ b ∧ b ≤ 0x5A then b + 0x20 else b

/-- The byte string `<html`. -/
def htmlTagBytes : List Nat := [0x3C, 0x68, 0x74, 0x6D, 0x6C]

/-- Attempt the regex `filename[^;=\n]*=(([\'"]).*?\2|[^;\n]*)` at a position
right after a literal `filename`, returning group 1. Because `[^;=\n]`
excludes `=`, the run before `=` is the maximal one; the first alternative is
a non-greedy quoted string (no newline, closing quote required), the second a
greedy run without `;` or newline. -/
def matchFilenameAt (cs : List Char) : Option (List Char) :=
  let run := cs.takeWhile fun c => c ≠ ';' && c ≠ '=' && c ≠ '\n'
  match cs.drop run.length with
  | '=' :: after =>
    some (match after with
      | q :: tail =>
        if q = '\'' || q = '"' then
          let inner := tail.takeWhile fun c => c ≠ q
          if tail.drop inner.length ≠ [] && !(inner.contains '\n') then
            q :: (inner ++ [q])
          else (q :: tail).takeWhile fun c => c ≠ ';' && c ≠ '\n'
        else (q :: tail).takeWhile fun c => c ≠ ';' && c ≠ '\n'
      | [] => [])
  | _ => none

/-- `re.search` for the pattern above: leftmost occurrence of `filename`
whose continuation matches (fuel-driven over suffix positions). -/
def searchFilenameGroup : Nat → List Char → Option (List Char)
  | 0, _ => none
  | _, [] => none
  | fuel + 1, c :: rest =>
    if ("filename".data).isPrefixOf (c :: rest) then
      match matchFilenameAt ((c :: rest).drop 8) with
      | some g => some g
      | none => searchFilenameGroup fuel rest
    else searchFilenameGroup fuel rest

/-- `better_name = match.group(1).strip('\'"')`. -/
def stripQuoteChars (l : List Char) : List Char :=
  ((l.dropWhile fun c => c = '\'' || c = '"').reverse.dropWhile fun c =>
      c = '\'' || c = '"').reverse

example : searchFilenameGroup 32 "attachment; filename=\"a b.pdf\"".data =
    some "\"a b.pdf\"".data := by decide

example : searchFilenameGroup 30 "attachment; filename*=x; filename=r.pdf".data =
    some "x".data := by decide

/-- `download_watermark_href(watermark_url, folder, referer)` from
`crawler.py`: derive a name from the query string, short-circuit on an
existing target, fetch with the source page as referer, reject HTML error
pages, validate, honour a `Content-Disposition` filename ending in `.pdf`
(re-resolving the target path), and write. -/
def downloadWatermarkHref (fs : List String)
    (sha1hex10 mtimeIso md5hex8 : String → String) (nowIso : String)
    (now : Nat) (net : String → String → Option HttpResponse)
    (watermarkUrl folder referer : String) : DlResult :=
  let pdfName := extractPdfNameFromUrl md5hex8 now watermarkUrl
  let target := uniqueTargetPath fs sha1hex10 folder pdfName watermarkUrl
  if fs.contains target then
    { record := some ⟨watermarkUrl, target, basename target, mtimeIso target⟩,
      requested := none, fs := fs }
  else
    match net watermarkUrl referer with
    | none => { record := none, requested := some watermarkUrl, fs := fs }
    | some resp =>
      if resp.statusCode ≠ 200 then
        { record := none, requested := some watermarkUrl, fs := fs }
      else
        let ct := strToLower resp.contentType
        if strContains ct "text/html" && !(strContains ct "application/pdf") &&
            containsSeq htmlTagBytes (bytesLower (resp.content.take 200)) then
          { record := none, requested := some watermarkUrl, fs := fs }
        else
          match extractPdfFromResponse resp.content with
          | none => { record := none, requested := some watermarkUrl, fs := fs }
          | some pdfContent =>
            if pdfContent.isEmpty || !(isValidPdf pdfContent) then
              { record := none, requested := some watermarkUrl, fs := fs }
            else
              let targetFinal :=
                if strContains resp.contentDisp "filename=" then
                  match searchFilenameGroup resp.contentDisp.data.length
                      resp.contentDisp.data with
                  | some g =>
                    let betterName : String := ⟨stripQuoteChars g⟩
                    if betterName.data ≠ [] && strEndsWith betterName ".pdf" then
                      uniqueTargetPath fs sha1hex10 folder
                        (sanitizeFilename betterName now) watermarkUrl
                    else target
                  | none => target
                else target
              { record := some
                  ⟨watermarkUrl, targetFinal, basename targetFinal, nowIso⟩,
                requested := some watermarkUrl, fs := fs ++ [targetFinal] }

/-! ### Short-circuit behaviour of the downloaders (claims C4, C5) -/

/-- Concrete stand-ins for the hash/clock/network oracles, used in witnesses
and counterexamples. -/
def cexHash : String → String := fun _ => "0123456789"

def cexMd5 : String → String := fun _ => "deadbeef"

def cexMtime : String → String := fun p => p ++ ":mtime"

def cexNet : String → String → Option HttpResponse := fun _ _ => some sampleResponse

def noNet : String → String → Option HttpResponse := fun _ _ => none

/-- **C4 (amended).** Each downloader short-circuits if and only if its
*computed* target path — the plain `folder/name` when that name is free, else
the hash-disambiguated variant — already exists: in that case it issues no
network request and returns a record built from the existing file's
modification time.  (A plain-name collision alone does not short-circuit: the
computed target is then the hashed variant, and when that is absent the
reference is fetched again.) -/
theorem C4_downloader_short_circuit_amended
    (fs : List String) (sha1hex10 mtimeIso md5hex8 : String → String)
    (nowIso : String) (now : Nat) (net : String → String → Option HttpResponse)
    (folder referer baseUrl pdfUrl pdfPath wUrl : String) :
    (fs.contains
        (uniqueTargetPath fs sha1hex10 folder (directPdfName pdfUrl) pdfUrl) = true →
      downloadDirectPdf fs sha1hex10 mtimeIso nowIso net pdfUrl folder referer =
        { record := some ⟨pdfUrl,
            uniqueTargetPath fs sha1hex10 folder (directPdfName pdfUrl) pdfUrl,
            basename (uniqueTargetPath fs sha1hex10 folder (directPdfName pdfUrl) pdfUrl),
            mtimeIso (uniqueTargetPath fs sha1hex10 folder (directPdfName pdfUrl) pdfUrl)⟩,
          requested := none, fs := fs }) ∧
    (fs.contains
        (uniqueTargetPath fs sha1hex10 folder (onclickPdfName pdfPath) pdfPath) = true →
      downloadOnclickWatermark fs sha1hex10 mtimeIso nowIso net pdfPath folder baseUrl =
        { record := some ⟨pdfPath,
            uniqueTargetPath fs sha1hex10 folder (onclickPdfName pdfPath) pdfPath,
            basename (uniqueTargetPath fs sha1hex10 folder (onclickPdfName pdfPath) pdfPath),
            mtimeIso (uniqueTargetPath fs sha1hex10 folder (onclickPdfName pdfPath) pdfPath)⟩,
          requested := none, fs := fs }) ∧
    (fs.contains
        (uniqueTargetPath fs sha1hex10 folder
          (extractPdfNameFromUrl md5hex8 now wUrl) wUrl) = true →
      downloadWatermarkHref fs sha1hex10 mtimeIso md5hex8 nowIso now net wUrl folder referer =
        { record := some ⟨wUrl,
            uniqueTargetPath fs sha1hex10 folder
              (extractPdfNameFromUrl md5hex8 now wUrl) wUrl,
            basename (uniqueTargetPath fs sha1hex10 folder
              (extractPdfNameFromUrl md5hex8 now wUrl) wUrl),
            mtimeIso (uniqueTargetPath fs sha1hex10 folder
              (extractPdfNameFromUrl md5hex8 now wUrl) wUrl)⟩,
          requested := none, fs := fs }) := by
  refine ⟨?_, ?_, ?_⟩
  · intro h
    have h' : uniqueTargetPath fs sha1hex10 folder (directPdfName pdfUrl) pdfUrl ∈ fs := by
      simpa using h
    simp [downloadDirectPdf, h']
  · intro h
    have h' : uniqueTargetPath fs sha1hex10 folder (onclickPdfName pdfPath) pdfPath ∈ fs := by
      simpa using h
    simp [downloadOnclickWatermark, h']
  · intro h
    have h' : uniqueTargetPath fs sha1hex10 folder
        (extractPdfNameFromUrl md5hex8 now wUrl) wUrl ∈ fs := by
      simpa using h
    simp [downloadWatermarkHref, h']

/-- Witness for C4 (amended): with both `dl/a.pdf` and its hashed variant on
disk, each downloader returns a record from the file's modification time and
issues no request. -/
theorem C4_downloader_short_circuit_amended_witness :
    (downloadDirectPdf ["dl/a.pdf", "dl/a_0123456789.pdf"] cexHash cexMtime
        "now" cexNet "http://h/a.pdf" "dl" "http://h/" =
      { record := some ⟨"http://h/a.pdf",
          uniqueTargetPath ["dl/a.pdf", "dl/a_0123456789.pdf"] cexHash "dl"
            (directPdfName "http://h/a.pdf") "http://h/a.pdf",
          basename (uniqueTargetPath ["dl/a.pdf", "dl/a_0123456789.pdf"] cexHash
            "dl" (directPdfName "http://h/a.pdf") "http://h/a.pdf"),
          cexMtime (uniqueTargetPath ["dl/a.pdf", "dl/a_0123456789.pdf"] cexHash
            "dl" (directPdfName "http://h/a.pdf") "http://h/a.pdf")⟩,
        requested := none, fs := ["dl/a.pdf", "dl/a_0123456789.pdf"] }) ∧
    (downloadOnclickWatermark ["dl/a.pdf", "dl/a_0123456789.pdf"] cexHash
        cexMtime "now" cexNet "pdf/x/a.pdf" "dl" "http://h/" =
      { record := some ⟨"pdf/x/a.pdf",
          uniqueTargetPath ["dl/a.pdf", "dl/a_0123456789.pdf"] cexHash "dl"
            (onclickPdfName "pdf/x/a.pdf") "pdf/x/a.pdf",
          basename (uniqueTargetPath ["dl/a.pdf", "dl/a_0123456789.pdf"] cexHash
            "dl" (onclickPdfName "pdf/x/a.pdf") "pdf/x/a.pdf"),
          cexMtime (uniqueTargetPath ["dl/a.pdf", "dl/a_0123456789.pdf"] cexHash
            "dl" (onclickPdfName "pdf/x/a.pdf") "pdf/x/a.pdf")⟩,
        requested := none, fs := ["dl/a.pdf", "dl/a_0123456789.pdf"] }) ∧
    (downloadWatermarkHref ["dl/a.pdf", "dl/a_0123456789.pdf"] cexHash cexMtime
        cexMd5 "now" 0 cexNet "https://h/watermark/download.php?show=a" "dl" "http://h/" =
      { record := some ⟨"https://h/watermark/download.php?show=a",
          uniqueTargetPath ["dl/a.pdf", "dl/a_0123456789.pdf"] cexHash "dl"
            (extractPdfNameFromUrl cexMd5 0 "https://h/watermark/download.php?show=a")
            "https://h/watermark/download.php?show=a",
          basename (uniqueTargetPath ["dl/a.pdf", "dl/a_0123456789.pdf"] cexHash
            "dl" (extractPdfNameFromUrl cexMd5 0 "https://h/watermark/download.php?show=a")
            "https://h/watermark/download.php?show=a"),
          cexMtime (uniqueTargetPath ["dl/a.pdf", "dl/a_0123456789.pdf"] cexHash
            "dl" (extractPdfNameFromUrl cexMd5 0 "https://h/watermark/download.php?show=a")
            "https://h/watermark/download.php?show=a")⟩,
        requested := none, fs := ["dl/a.pdf", "dl/a_0123456789.pdf"] }) :=
  ⟨(C4_downloader_short_circuit_amended ["dl/a.pdf", "dl/a_0123456789.pdf"]
      cexHash cexMtime cexMd5 "now" 0 cexNet "dl" "http://h/" "http://h/"
      "http://h/a.pdf" "pdf/x/a.pdf" "https://h/watermark/download.php?show=a").1
      (by decide),
    (C4_downloader_short_circuit_amended ["dl/a.pdf", "dl/a_0123456789.pdf"]
      cexHash cexMtime cexMd5 "now" 0 cexNet "dl" "http://h/" "http://h/"
      "http://h/a.pdf" "pdf/x/a.pdf" "https://h/watermark/download.php?show=a").2.1
      (by decide),
    (C4_downloader_short_circuit_amended ["dl/a.pdf", "dl/a_0123456789.pdf"]
      cexHash cexMtime cexMd5 "now" 0 cexNet "dl" "http://h/" "http://h/"
      "http://h/a.pdf" "pdf/x/a.pdf" "https://h/watermark/download.php?show=a").2.2
      (by decide)⟩

/-- **C4 (counterexample).** A reference whose plain-name file `dl/a.pdf`
exists from a prior run *is* re-fetched: the computed target is then the
hashed variant `dl/a_{sha1[:10]}.pdf`, which does not exist, so the
downloader issues a network GET and returns a freshly-timestamped record at
the hashed path instead of short-circuiting on the plain name. -/
theorem C4_downloader_short_circuit_counterexample :
    (["dl/a.pdf"] : List String).contains ("dl" ++ "/" ++ "a.pdf") = true ∧
    (downloadDirectPdf ["dl/a.pdf"] cexHash cexMtime "now" cexNet
        "http://h/a.pdf" "dl" "http://h/").requested = some "http://h/a.pdf" ∧
    downloadDirectPdf ["dl/a.pdf"] cexHash cexMtime "now" cexNet
        "http://h/a.pdf" "dl" "http://h/" =
      { record := some ⟨"http://h/a.pdf", "dl/a_0123456789.pdf",
          "a_0123456789.pdf", "now"⟩,
        requested := some "http://h/a.pdf",
        fs := ["dl/a.pdf", "dl/a_0123456789.pdf"] } := by
  refine ⟨by decide, by decide, by decide⟩

/-- **C5.** Whenever the onclick downloader does fetch (its computed target
path is not on disk), it issues the GET to exactly the reconstructed
watermark URL: leading `pdf/` and trailing `.pdf` stripped, remainder
percent-encoded with no safe characters, attached to the *source page's*
scheme and host; in particular the path `pdf/Policy/Laptop.pdf` discovered on
`https://example.mil/docs` is fetched from
`https://example.mil/watermark/download.php?show=Policy%2FLaptop`. -/
theorem C5_onclick_url (fs : List String) (sha1hex10 mtimeIso : String → String)
    (nowIso : String) (net : String → String → Option HttpResponse)
    (pdfPath folder baseUrl : String)
    (h : fs.contains
      (uniqueTargetPath fs sha1hex10 folder (onclickPdfName pdfPath) pdfPath) = false) :
    (downloadOnclickWatermark fs sha1hex10 mtimeIso nowIso net pdfPath folder
        baseUrl).requested = some (onclickWatermarkUrl pdfPath baseUrl) ∧
    onclickWatermarkUrl "pdf/Policy/Laptop.pdf" "https://example.mil/docs" =
      "https://example.mil/watermark/download.php?show=Policy%2FLaptop" := by
  constructor
  · simp only [downloadOnclickWatermark, h, Bool.false_eq_true, if_false]
    cases hnet : net (onclickWatermarkUrl pdfPath baseUrl) baseUrl with
    | none => rfl
    | some resp =>
      by_cases hst : resp.statusCode ≠ 200
      · simp [hst]
      · simp only [hst, if_false]
        cases hex : extractPdfFromResponse resp.content with
        | none => rfl
        | some pdfContent =>
          by_cases hval : pdfContent.isEmpty || !(isValidPdf pdfContent)
          · simp [hval]
          · simp [hval]
  · decide

/-- Witness for C5 with an empty filesystem and a dead network. -/
theorem C5_onclick_url_witness :
    (downloadOnclickWatermark [] cexHash cexMtime "now" noNet
        "pdf/Policy/Laptop.pdf" "dl" "https://example.mil/docs").requested =
      some (onclickWatermarkUrl "pdf/Policy/Laptop.pdf" "https://example.mil/docs") ∧
    onclickWatermarkUrl "pdf/Policy/Laptop.pdf" "https://example.mil/docs" =
      "https://example.mil/watermark/download.php?show=Policy%2FLaptop" :=
  C5_onclick_url [] cexHash cexMtime "now" noNet "pdf/Policy/Laptop.pdf" "dl"
    "https://example.mil/docs" (by decide)

/-! ## The crawl orchestrator (`crawl_and_download`)

A fetched page is modelled by the outputs of the three extractors
(`_extract_onclick_pdfs`, `_extract_watermark_hrefs`,
`_extract_regular_pdf_links`) and by the absolute link URLs
`urljoin(current_url, urldefrag(href)[0])` of its anchors; BeautifulSoup
parsing and `urljoin` resolution are collaborator behaviour and enter as an
oracle.  The three downloaders likewise enter as oracles returning the
record fields other than the reference key (each real downloader sets the
record's `url` field to its reference argument — lines 414/451, 473/531,
549/573 — so the orchestrator model attaches the key itself, exactly as the
result list receives it). -/

structure Page where
  onclickPdfs : List String
  watermarkHrefs : List String
  regularPdfs : List String
  links : List String

structure World where
  page : String → Option Page
  dlOnclick : String → String → Option DlRecord
  dlWatermark : String → String → Option DlRecord
  dlDirect : String → String → Option DlRecord

/-- One entry of the `downloaded` result list: the reference key
(`pdf_info["url"]`), the `method` and `source_page` fields the orchestrator
attaches, and the rest of the record. -/
structure CrawlRec where
  key : String
  method : String
  sourcePage : String
  info : DlRecord
deriving DecidableEq

structure CrawlConfig where
  allowed : Option (List String)
  maxPages : Option Nat
  maxPdfs : Option Nat

structure CrawlState where
  visited : List String
  queue : List String
  downloaded : List CrawlRec
  downloadedUrls : List String
  pagesCrawled : Nat
  maxPdfLimitHit : Bool
deriving DecidableEq

/-- The allowed-host set built at the start of `crawl_and_download`: each
host lower-cased, plus its port-stripped form when it contains a colon. -/
def buildAllowed (hosts : List String) : List String :=
  hosts.flatMap fun h =>
    let lowered := strToLower h
    if lowered.data.contains ':' then
      [lowered, ⟨lowered.data.takeWhile fun c => c ≠ ':'⟩]
    else [lowered]

/-- `_is_allowed_host(parsed, allowed)` from `crawler.py`. -/
def isAllowedHost (p : UrlParts) (allowed : List String) : Bool :=
  allowed.contains (strToLower p.netloc) || allowed.contains (urlHostname p)

/-- `allowed and not _is_allowed_host(parsed, allowed)`: the skip condition,
honouring Python's falsiness of an empty set. -/
def hostBlocked (allowed : Option (List String)) (p : UrlParts) : Bool :=
  match allowed with
  | some al => if al = [] then false else !(isAllowedHost p al)
  | none => false

/-- `max_pdfs is not None and len(downloaded) >= max_pdfs`. -/
def maxPdfsReached (maxPdfs : Option Nat) (n : Nat) : Bool :=
  match maxPdfs with
  | some m => n ≥ m
  | none => false

/-- `max_pages is not None and pages_crawled >= max_pages`. -/
def maxPagesReached (maxPages : Option Nat) (n : Nat) : Bool :=
  match maxPages with
  | some m => n ≥ m
  | none => false

/-- One extractor category's download loop (`for pdf_path in onclick_pdfs:`
etc., lines 171-191 / 197-217 / 223-246): skip references failing `skip`
(the host filter, for the direct category), skip references already in
`downloaded_urls`, invoke the downloader, append the record and the key on
success, and stop with the limit flag as soon as `max_pdfs` is reached. -/
def runRefs (maxPdfs : Option Nat) (dl : String → String → Option DlRecord)
    (method curUrl : String) (skip : String → Bool) :
    List String → List CrawlRec → List String →
      List CrawlRec × List String × Bool
  | [], downloaded, dlUrls => (downloaded, dlUrls, false)
  | r :: rest, downloaded, dlUrls =>
    if skip r then runRefs maxPdfs dl method curUrl skip rest downloaded dlUrls
    else if dlUrls.contains r then
      runRefs maxPdfs dl method curUrl skip rest downloaded dlUrls
    else
      match dl r curUrl with
      | none => runRefs maxPdfs dl method curUrl skip rest downloaded dlUrls
      | some info =>
        let downloaded' := downloaded ++ [⟨r, method, curUrl, info⟩]
        let dlUrls' := dlUrls ++ [r]
        if maxPdfsReached maxPdfs downloaded'.length then
          (downloaded', dlUrls', true)
        else runRefs maxPdfs dl method curUrl skip rest downloaded' dlUrls'

/-- The non-content extensions skipped at enqueue time. -/
def skipExtensions : List String :=
  [".jpg", ".jpeg", ".png", ".gif", ".css", ".js", ".ico", ".svg", ".woff",
    ".ttf", ".mp4", ".mp3"]

/-- The link-scan skip conditions of lines 264-283: non-http(s) scheme,
blocked host, direct-PDF path, watermark download path, non-content
extension. -/
def linkFiltered (allowed : Option (List String)) (u : String) : Bool :=
  let parsed := pyUrlparse u
  let pathLower := strToLower parsed.path
  if !(parsed.scheme == "http" || parsed.scheme == "https") then true
  else if hostBlocked allowed parsed then true
  else if strEndsWith pathLower ".pdf" then true
  else if strContains pathLower "watermark" && strContains pathLower "download.php" then
    true
  else if skipExtensions.any (fun ext => strEndsWith pathLower ext) then true
  else false

/-- The enqueue loop of lines 254-287: append each unfiltered link not
already visited and not already queued. -/
def enqueueLinks (allowed : Option (List String)) (visited : List String) :
    List String → List String → List String
  | queue, [] => queue
  | queue, u :: rest =>
    if linkFiltered allowed u then enqueueLinks allowed visited queue rest
    else if visited.contains u || queue.contains u then
      enqueueLinks allowed visited queue rest
    else enqueueLinks allowed visited (queue ++ [u]) rest

/-- Lines 154-295: process one fetched page — onclick references, then
watermark hrefs, then direct links (the latter behind the host filter), each
category aborting the run via the limit flag, and finally the link scan,
which runs only when the limit was not hit. -/
def processPage (cfg : CrawlConfig) (w : World) (curUrl : String) (pg : Page)
    (st : CrawlState) : CrawlState :=
  let r1 := runRefs cfg.maxPdfs w.dlOnclick "onclick" curUrl (fun _ => false)
    pg.onclickPdfs st.downloaded st.downloadedUrls
  if r1.2.2 then
    { st with downloaded := r1.1, downloadedUrls := r1.2.1, maxPdfLimitHit := true }
  else
    let r2 := runRefs cfg.maxPdfs w.dlWatermark "watermark_href" curUrl
      (fun _ => false) pg.watermarkHrefs r1.1 r1.2.1
    if r2.2.2 then
      { st with downloaded := r2.1, downloadedUrls := r2.2.1, maxPdfLimitHit := true }
    else
      let r3 := runRefs cfg.maxPdfs w.dlDirect "direct" curUrl
        (fun u => hostBlocked cfg.allowed (pyUrlparse u)) pg.regularPdfs r2.1 r2.2.1
      if r3.2.2 then
        { st with downloaded := r3.1, downloadedUrls := r3.2.1, maxPdfLimitHit := true }
      else
        { st with
            downloaded := r3.1
            downloadedUrls := r3.2.1
            queue := enqueueLinks cfg.allowed st.visited st.queue pg.links }

/-- The `while queue and not max_pdf_limit_hit:` loop of lines 121-296,
fuel-driven (the queue can grow, so the recursion is on fuel; every theorem
below holds for every fuel value). -/
def crawlLoop (cfg : CrawlConfig) (w : World) : Nat → CrawlState → CrawlState
  | 0, st => st
  | fuel + 1, st =>
    match st.queue with
    | [] => st
    | cur :: qrest =>
      if st.maxPdfLimitHit then st
      else if maxPagesReached cfg.maxPages st.pagesCrawled then st
      else if st.visited.contains cur then
        crawlLoop cfg w fuel { st with queue := qrest }
      else
        let st' := { st with
          queue := qrest
          visited := st.visited ++ [cur]
          pagesCrawled := st.pagesCrawled + 1 }
        match w.page cur with
        | none => crawlLoop cfg w fuel st'
        | some pg => crawlLoop cfg w fuel (processPage cfg w cur pg st')

/-- `crawl_and_download(start_url, ...)`: run the loop from the initial
state. -/
def crawlAndDownload (cfg : CrawlConfig) (w : World) (startUrl : String)
    (fuel : Nat) : CrawlState :=
  crawlLoop cfg w fuel ⟨[], [startUrl], [], [], 0, false⟩

/-! ### Invariants of the orchestrator (claims C1, C8, C9, C10) -/

theorem runRefs_align (maxPdfs : Option Nat) (dl : String → String → Option DlRecord)
    (method curUrl : String) (skip : String → Bool) :
    ∀ (refs : List String) (downloaded : List CrawlRec) (dlUrls : List String),
      downloaded.map CrawlRec.key = dlUrls →
      (runRefs maxPdfs dl method curUrl skip refs downloaded dlUrls).1.map CrawlRec.key =
        (runRefs maxPdfs dl method curUrl skip refs downloaded dlUrls).2.1 := by
  intro refs
  induction refs with
  | nil => intro downloaded dlUrls h; simpa [runRefs] using h
  | cons r rest ih =>
    intro downloaded dlUrls h
    unfold runRefs
    split
    · exact ih downloaded dlUrls h
    · split
      · exact ih downloaded dlUrls h
      · split
        · exact ih downloaded dlUrls h
        · dsimp only
          split
          · simp [h]
          · exact ih _ _ (by simp [h])

theorem runRefs_nodup (maxPdfs : Option Nat) (dl : String → String → Option DlRecord)
    (method curUrl : String) (skip : String → Bool) :
    ∀ (refs : List String) (downloaded : List CrawlRec) (dlUrls : List String),
      dlUrls.Nodup →
      (runRefs maxPdfs dl method curUrl skip refs downloaded dlUrls).2.1.Nodup := by
  intro refs
  induction refs with
  | nil => intro downloaded dlUrls h; simpa [runRefs] using h
  | cons r rest ih =>
    intro downloaded dlUrls h
    unfold runRefs
    split
    · exact ih downloaded dlUrls h
    · split
      · exact ih downloaded dlUrls h
      · rename_i hskip hmem
        have hnotmem : r ∉ dlUrls := by
          intro habs
          exact hmem (by simpa using habs)
        have hnodup' : (dlUrls ++ [r]).Nodup := by
          rw [List.nodup_append]
          exact ⟨h, List.nodup_singleton r, by simpa using hnotmem⟩
        split
        · exact ih downloaded dlUrls h
        · dsimp only
          split
          · exact hnodup'
          · exact ih _ _ hnodup'

theorem runRefs_news (maxPdfs : Option Nat) (dl : String → String → Option DlRecord)
    (method curUrl : String) (skip : String → Bool) :
    ∀ (refs : List String) (downloaded : List CrawlRec) (dlUrls : List String),
      ∃ news : List CrawlRec,
        (runRefs maxPdfs dl method curUrl skip refs downloaded dlUrls).1 =
          downloaded ++ news ∧
        ∀ rec' ∈ news, rec'.method = method ∧ rec'.sourcePage = curUrl ∧
          skip rec'.key = false := by
  intro refs
  induction refs with
  | nil =>
    intro downloaded dlUrls
    exact ⟨[], by simp [runRefs], by simp⟩
  | cons r rest ih =>
    intro downloaded dlUrls
    unfold runRefs
    split
    · exact ih downloaded dlUrls
    · split
      · exact ih downloaded dlUrls
      · rename_i hskip hmem
        have hskip' : skip r = false := by
          rcases hb : skip r with _ | _
          · rfl
          · exact absurd hb hskip
        split
        · exact ih downloaded dlUrls
        · rename_i info hdl
          dsimp only
          split
          · refine ⟨[⟨r, method, curUrl, info⟩], rfl, ?_⟩
            intro rec' hrec
            rcases List.mem_singleton.mp hrec with rfl
            exact ⟨rfl, rfl, hskip'⟩
          · obtain ⟨news, hnews, hprop⟩ :=
              ih (downloaded ++ [⟨r, method, curUrl, info⟩]) (dlUrls ++ [r])
            refine ⟨⟨r, method, curUrl, info⟩ :: news, ?_, ?_⟩
            · rw [hnews, List.append_assoc]
              rfl
            · intro rec' hrec
              rcases List.mem_cons.mp hrec with rfl | hmem'
              · exact ⟨rfl, rfl, hskip'⟩
              · exact hprop rec' hmem'

theorem runRefs_bound (m : Nat) (dl : String → String → Option DlRecord)
    (method curUrl : String) (skip : String → Bool) :
    ∀ (refs : List String) (downloaded : List CrawlRec) (dlUrls : List String),
      downloaded.length < max m 1 →
      (runRefs (some m) dl method curUrl skip refs downloaded dlUrls).1.length ≤ max m 1 ∧
      ((runRefs (some m) dl method curUrl skip refs downloaded dlUrls).2.2 = false →
        (runRefs (some m) dl method curUrl skip refs downloaded dlUrls).1.length < max m 1) := by
  intro refs
  induction refs with
  | nil =>
    intro downloaded dlUrls h
    refine ⟨by simpa [runRefs] using h.le, fun _ => by simpa [runRefs] using h⟩
  | cons r rest ih =>
    intro downloaded dlUrls h
    unfold runRefs
    split
    · exact ih downloaded dlUrls h
    · split
      · exact ih downloaded dlUrls h
      · split
        · exact ih downloaded dlUrls h
        · rename_i info hdl
          dsimp only
          split
          · rename_i hreach
            have hge : (downloaded ++ [CrawlRec.mk r method curUrl info]).length ≥ m := by
              simpa [maxPdfsReached] using hreach
            constructor
            · simp only [List.length_append, List.length_cons, List.length_nil]
              simp only [List.length_append, List.length_cons, List.length_nil] at hge
              omega
            · intro habs
              cases habs
          · rename_i hreach
            have hlt : ¬ ((downloaded ++ [CrawlRec.mk r method curUrl info]).length ≥ m) := by
              intro habs
              exact hreach (by simpa [maxPdfsReached] using habs)
            refine ih _ _ ?_
            simp only [List.length_append, List.length_cons, List.length_nil] at hlt ⊢
            omega

/-- The orchestrator-loop invariant: visited and the key set are
duplicate-free, the result list's keys are exactly `downloaded_urls` in
order, the PDF count respects its limit (strictly while the limit flag is
down), the page count respects its limit, and every direct-method record
passed the host filter. -/
def CrawlInv (cfg : CrawlConfig) (st : CrawlState) : Prop :=
  st.visited.Nodup ∧
  st.downloadedUrls.Nodup ∧
  st.downloaded.map CrawlRec.key = st.downloadedUrls ∧
  (∀ m, cfg.maxPdfs = some m →
    st.downloaded.length ≤ max m 1 ∧
    (st.maxPdfLimitHit = false → st.downloaded.length < max m 1)) ∧
  (∀ p, cfg.maxPages = some p → st.pagesCrawled ≤ p) ∧
  (∀ rec' ∈ st.downloaded, rec'.method = "direct" →
    hostBlocked cfg.allowed (pyUrlparse rec'.key) = false)

theorem directInv_append (allowed : Option (List String))
    (base news : List CrawlRec)
    (hbase : ∀ r' ∈ base, r'.method = "direct" →
      hostBlocked allowed (pyUrlparse r'.key) = false)
    (hnews : ∀ r' ∈ news, r'.method = "direct" →
      hostBlocked allowed (pyUrlparse r'.key) = false) :
    ∀ r' ∈ base ++ news, r'.method = "direct" →
      hostBlocked allowed (pyUrlparse r'.key) = false := by
  intro r' hr'
  rcases List.mem_append.mp hr' with h | h
  · exact hbase r' h
  · exact hnews r' h

theorem processPage_inv (cfg : CrawlConfig) (w : World) (cur : String) (pg : Page)
    (st : CrawlState) (hinv : CrawlInv cfg st)
    (hflag : st.maxPdfLimitHit = false) :
    CrawlInv cfg (processPage cfg w cur pg st) := by
  obtain ⟨hv, hdu, halign, hbound, hpages, hdirect⟩ := hinv
  unfold processPage
  dsimp only
  set r1 := runRefs cfg.maxPdfs w.dlOnclick "onclick" cur (fun _ => false)
    pg.onclickPdfs st.downloaded st.downloadedUrls with hr1
  set r2 := runRefs cfg.maxPdfs w.dlWatermark "watermark_href" cur (fun _ => false)
    pg.watermarkHrefs r1.1 r1.2.1 with hr2
  set r3 := runRefs cfg.maxPdfs w.dlDirect "direct" cur
    (fun u => hostBlocked cfg.allowed (pyUrlparse u)) pg.regularPdfs r2.1 r2.2.1
    with hr3
  have a1 : r1.1.map CrawlRec.key = r1.2.1 := by
    rw [hr1]; exact runRefs_align _ _ _ _ _ _ _ _ halign
  have nd1 : r1.2.1.Nodup := by
    rw [hr1]; exact runRefs_nodup _ _ _ _ _ _ _ _ hdu
  have a2 : r2.1.map CrawlRec.key = r2.2.1 := by
    rw [hr2]; exact runRefs_align _ _ _ _ _ _ _ _ a1
  have nd2 : r2.2.1.Nodup := by
    rw [hr2]; exact runRefs_nodup _ _ _ _ _ _ _ _ nd1
  have a3 : r3.1.map CrawlRec.key = r3.2.1 := by
    rw [hr3]; exact runRefs_align _ _ _ _ _ _ _ _ a2
  have nd3 : r3.2.1.Nodup := by
    rw [hr3]; exact runRefs_nodup _ _ _ _ _ _ _ _ nd2
  obtain ⟨news1, hnews1, hprop1⟩ :=
    runRefs_news cfg.maxPdfs w.dlOnclick "onclick" cur (fun _ => false)
      pg.onclickPdfs st.downloaded st.downloadedUrls
  obtain ⟨news2, hnews2, hprop2⟩ :=
    runRefs_news cfg.maxPdfs w.dlWatermark "watermark_href" cur (fun _ => false)
      pg.watermarkHrefs r1.1 r1.2.1
  obtain ⟨news3, hnews3, hprop3⟩ :=
    runRefs_news cfg.maxPdfs w.dlDirect "direct" cur
      (fun u => hostBlocked cfg.allowed (pyUrlparse u)) pg.regularPdfs r2.1 r2.2.1
  rw [← hr1] at hnews1
  rw [← hr2] at hnews2
  rw [← hr3] at hnews3
  have hd1 : ∀ r' ∈ r1.1, r'.method = "direct" →
      hostBlocked cfg.allowed (pyUrlparse r'.key) = false := by
    rw [hnews1]
    refine directInv_append _ _ _ hdirect ?_
    intro r' hr' hmethod
    exact absurd ((hprop1 r' hr').1.symm.trans hmethod) (by decide)
  have hd2 : ∀ r' ∈ r2.1, r'.method = "direct" →
      hostBlocked cfg.allowed (pyUrlparse r'.key) = false := by
    rw [hnews2]
    refine directInv_append _ _ _ hd1 ?_
    intro r' hr' hmethod
    exact absurd ((hprop2 r' hr').1.symm.trans hmethod) (by decide)
  have hd3 : ∀ r' ∈ r3.1, r'.method = "direct" →
      hostBlocked cfg.allowed (pyUrlparse r'.key) = false := by
    rw [hnews3]
    refine directInv_append _ _ _ hd2 ?_
    intro r' hr' _
    exact (hprop3 r' hr').2.2
  split
  · -- limit hit during the onclick batch
    refine ⟨hv, nd1, a1, ?_, hpages, hd1⟩
    intro m hm
    rw [hm] at hr1
    have hb := runRefs_bound m w.dlOnclick "onclick" cur (fun _ => false)
      pg.onclickPdfs st.downloaded st.downloadedUrls
      ((hbound m hm).2 hflag)
    rw [← hr1] at hb
    exact ⟨hb.1, fun habs => by cases habs⟩
  · split
    · -- limit hit during the watermark batch
      rename_i hf1 hf2
      have hf1' : r1.2.2 = false := by
        rcases hb : r1.2.2 with _ | _
        · rfl
        · exact absurd hb hf1
      refine ⟨hv, nd2, a2, ?_, hpages, hd2⟩
      intro m hm
      rw [hm] at hr1 hr2
      have hb1 := runRefs_bound m w.dlOnclick "onclick" cur (fun _ => false)
        pg.onclickPdfs st.downloaded st.downloadedUrls
        ((hbound m hm).2 hflag)
      rw [← hr1] at hb1
      have hb2 := runRefs_bound m w.dlWatermark "watermark_href" cur (fun _ => false)
        pg.watermarkHrefs r1.1 r1.2.1 (hb1.2 hf1')
      rw [← hr2] at hb2
      exact ⟨hb2.1, fun habs => by cases habs⟩
    · split
      · -- limit hit during the direct batch
        rename_i hf1 hf2 hf3
        have hf1' : r1.2.2 = false := by
          rcases hb : r1.2.2 with _ | _
          · rfl
          · exact absurd hb hf1
        have hf2' : r2.2.2 = false := by
          rcases hb : r2.2.2 with _ | _
          · rfl
          · exact absurd hb hf2
        refine ⟨hv, nd3, a3, ?_, hpages, hd3⟩
        intro m hm
        rw [hm] at hr1 hr2 hr3
        have hb1 := runRefs_bound m w.dlOnclick "onclick" cur (fun _ => false)
          pg.onclickPdfs st.downloaded st.downloadedUrls
          ((hbound m hm).2 hflag)
        rw [← hr1] at hb1
        have hb2 := runRefs_bound m w.dlWatermark "watermark_href" cur (fun _ => false)
          pg.watermarkHrefs r1.1 r1.2.1 (hb1.2 hf1')
        rw [← hr2] at hb2
        have hb3 := runRefs_bound m w.dlDirect "direct" cur
          (fun u => hostBlocked cfg.allowed (pyUrlparse u)) pg.regularPdfs r2.1 r2.2.1
          (hb2.2 hf2')
        rw [← hr3] at hb3
        exact ⟨hb3.1, fun habs => by cases habs⟩
      · -- no limit hit on this page
        rename_i hf1 hf2 hf3
        have hf1' : r1.2.2 = false := by
          rcases hb : r1.2.2 with _ | _
          · rfl
          · exact absurd hb hf1
        have hf2' : r2.2.2 = false := by
          rcases hb : r2.2.2 with _ | _
          · rfl
          · exact absurd hb hf2
        have hf3' : r3.2.2 = false := by
          rcases hb : r3.2.2 with _ | _
          · rfl
          · exact absurd hb hf3
        refine ⟨hv, nd3, a3, ?_, hpages, hd3⟩
        intro m hm
        rw [hm] at hr1 hr2 hr3
        have hb1 := runRefs_bound m w.dlOnclick "onclick" cur (fun _ => false)
          pg.onclickPdfs st.downloaded st.downloadedUrls
          ((hbound m hm).2 hflag)
        rw [← hr1] at hb1
        have hb2 := runRefs_bound m w.dlWatermark "watermark_href" cur (fun _ => false)
          pg.watermarkHrefs r1.1 r1.2.1 (hb1.2 hf1')
        rw [← hr2] at hb2
        have hb3 := runRefs_bound m w.dlDirect "direct" cur
          (fun u => hostBlocked cfg.allowed (pyUrlparse u)) pg.regularPdfs r2.1 r2.2.1
          (hb2.2 hf2')
        rw [← hr3] at hb3
        exact ⟨hb3.1, fun _ => hb3.2 hf3'⟩

theorem crawlLoop_inv (cfg : CrawlConfig) (w : World) :
    ∀ (fuel : Nat) (st : CrawlState), CrawlInv cfg st →
      CrawlInv cfg (crawlLoop cfg w fuel st) := by
  intro fuel
  induction fuel with
  | zero => intro st h; exact h
  | succ n ih =>
    intro st h
    unfold crawlLoop
    match hq : st.queue with
    | [] => exact h
    | cur :: qrest =>
      dsimp only
      by_cases hflag : st.maxPdfLimitHit = true
      · rw [if_pos hflag]
        exact h
      · have hflag' : st.maxPdfLimitHit = false := by
          rcases hb : st.maxPdfLimitHit with _ | _
          · rfl
          · exact absurd hb hflag
        rw [if_neg hflag]
        by_cases hmp : maxPagesReached cfg.maxPages st.pagesCrawled = true
        · rw [if_pos hmp]
          exact h
        · rw [if_neg hmp]
          by_cases hvis : st.visited.contains cur = true
          · rw [if_pos hvis]
            exact ih _ h
          · rw [if_neg hvis]
            obtain ⟨hv, hdu, halign, hbound, hpages, hdirect⟩ := h
            have hnotvis : cur ∉ st.visited := by
              intro habs
              exact hvis (by simpa using habs)
            have hinv' : CrawlInv cfg
                { st with
                  queue := qrest
                  visited := st.visited ++ [cur]
                  pagesCrawled := st.pagesCrawled + 1 } := by
              refine ⟨?_, hdu, halign, hbound, ?_, hdirect⟩
              · rw [List.nodup_append]
                exact ⟨hv, List.nodup_singleton cur, by simpa using hnotvis⟩
              · intro p hp
                have h1 := hpages p hp
                have h2 : ¬ (st.pagesCrawled ≥ p) := by
                  intro habs
                  exact hmp (by simp [maxPagesReached, hp, habs])
                show st.pagesCrawled + 1 ≤ p
                omega
            cases hpg : w.page cur with
            | none => exact ih _ hinv'
            | some pg => exact ih _ (processPage_inv cfg w cur pg _ hinv' hflag')

theorem crawlInit_inv (cfg : CrawlConfig) (startUrl : String) :
    CrawlInv cfg ⟨[], [startUrl], [], [], 0, false⟩ := by
  refine ⟨List.nodup_nil, List.nodup_nil, rfl, ?_, ?_, ?_⟩
  · intro m _
    constructor
    · simp
    · intro _
      simp only [List.length_nil]
      omega
  · intro p _
    exact Nat.zero_le p
  · intro r' hr'
    cases hr'

theorem crawlLoop_flag (cfg : CrawlConfig) (w : World) :
    ∀ (fuel : Nat) (st : CrawlState), st.maxPdfLimitHit = true →
      crawlLoop cfg w fuel st = st := by
  intro fuel st hflag
  cases fuel with
  | zero => rfl
  | succ n =>
    unfold crawlLoop
    match hq : st.queue with
    | [] => rfl
    | cur :: qrest =>
      dsimp only
      rw [if_pos hflag]

/-- **C1 (amended).** The page limit is exact: `pages_crawled ≤ max_pages`
whenever `max_pages` is set (including `0`).  The PDF limit holds in the form
`len(downloaded) ≤ max(max_pdfs, 1)`: for `max_pdfs ≥ 1` this is the claimed
bound, but a run with `max_pdfs = 0` can still download one PDF, because the
limit is only checked after a record has been appended. -/
theorem C1_crawl_limits_amended (cfg : CrawlConfig) (w : World)
    (startUrl : String) (fuel : Nat) :
    (∀ m, cfg.maxPdfs = some m →
      (crawlAndDownload cfg w startUrl fuel).downloaded.length ≤ max m 1) ∧
    (∀ p, cfg.maxPages = some p →
      (crawlAndDownload cfg w startUrl fuel).pagesCrawled ≤ p) := by
  have h := crawlLoop_inv cfg w fuel _ (crawlInit_inv cfg startUrl)
  exact ⟨fun m hm => (h.2.2.2.1 m hm).1, h.2.2.2.2.1⟩

/-- A single page carrying one direct PDF link, and a world where its
download succeeds. -/
def limitPage : Page := ⟨[], [], ["http://s/a.pdf"], []⟩

def limitWorld : World :=
  { page := fun u => if u == "http://s/" then some limitPage else none
    dlOnclick := fun _ _ => none
    dlWatermark := fun _ _ => none
    dlDirect := fun _ _ => some ⟨"", "dl/a.pdf", "a.pdf", "now"⟩ }

def zeroPdfCfg : CrawlConfig := ⟨none, none, some 0⟩

def onePageCfg : CrawlConfig := ⟨none, some 1, some 2⟩

/-- **C1 (counterexample).** With `max_pdfs = 0` the crawler still downloads
one PDF — the returned list has length `1 > 0` — because the limit check
(`len(downloaded) >= max_pdfs`) runs only after the record was appended. -/
theorem C1_crawl_limits_counterexample :
    (crawlAndDownload zeroPdfCfg limitWorld "http://s/" 3).downloaded.length = 1 ∧
    ¬ ((crawlAndDownload zeroPdfCfg limitWorld "http://s/" 3).downloaded.length ≤ 0) := by
  refine ⟨by decide, by decide⟩

/-- Witness for C1 (amended) at a concrete configuration with
`max_pdfs = 2` and `max_pages = 1`. -/
theorem C1_crawl_limits_amended_witness :
    (crawlAndDownload onePageCfg limitWorld "http://s/" 3).downloaded.length ≤ max 2 1 ∧
    (crawlAndDownload onePageCfg limitWorld "http://s/" 3).pagesCrawled ≤ 1 :=
  ⟨(C1_crawl_limits_amended onePageCfg limitWorld "http://s/" 3).1 2 rfl,
    (C1_crawl_limits_amended onePageCfg limitWorld "http://s/" 3).2 1 rfl⟩

/-- **C8.** For every completed run, no URL appears twice in the visited set
and no reference key appears twice among the returned document records, even
when the same reference is discovered on several pages or matched by more
than one extractor (all three categories share one `downloaded_urls` set). -/
theorem C8_no_duplicates (cfg : CrawlConfig) (w : World) (startUrl : String)
    (fuel : Nat) :
    (crawlAndDownload cfg w startUrl fuel).visited.Nodup ∧
    ((crawlAndDownload cfg w startUrl fuel).downloaded.map CrawlRec.key).Nodup := by
  have h := crawlLoop_inv cfg w fuel _ (crawlInit_inv cfg startUrl)
  refine ⟨h.1, ?_⟩
  unfold crawlAndDownload
  rw [h.2.2.1]
  exact h.2.1

/-- A page on `example.com` carrying an off-host watermark href, an off-host
direct PDF link, and an off-host anchor. -/
def c10Page : Page :=
  ⟨[], ["https://other.com/watermark/download.php?show=X"],
    ["https://other.com/doc.pdf"], ["https://other.com/page"]⟩

def c10World : World :=
  { page := fun u => if u == "https://example.com/" then some c10Page else none
    dlOnclick := fun _ _ => none
    dlWatermark := fun _ _ => some ⟨"", "dl/X.pdf", "X.pdf", "now"⟩
    dlDirect := fun _ _ => some ⟨"", "dl/doc.pdf", "doc.pdf", "now"⟩ }

/-- The same site with an on-host direct PDF link instead. -/
def c10WorldB : World :=
  { page := fun u => if u == "https://example.com/" then
      some ⟨[], [], ["https://example.com/doc.pdf"], []⟩ else none
    dlOnclick := fun _ _ => none
    dlWatermark := fun _ _ => none
    dlDirect := fun _ _ => some ⟨"", "dl/doc.pdf", "doc.pdf", "now"⟩ }

def c10Cfg : CrawlConfig := ⟨some (buildAllowed ["example.com"]), none, none⟩

/-- **C10.** The host filter touches only direct-link references and frontier
enqueuing.  In every run, each direct-method record's URL passed the host
filter; and in the concrete run below with `allowed_hosts = {example.com}`,
the watermark href on `other.com` — whose host the filter would block — is
nevertheless fetched and downloaded, while the `other.com` direct PDF is
skipped and the `other.com` anchor is never enqueued or crawled. -/
theorem C10_host_filter (cfg : CrawlConfig) (w : World) (startUrl : String)
    (fuel : Nat) :
    (∀ rec' ∈ (crawlAndDownload cfg w startUrl fuel).downloaded,
      rec'.method = "direct" →
      hostBlocked cfg.allowed (pyUrlparse rec'.key) = false) ∧
    ((crawlAndDownload c10Cfg c10World "https://example.com/" 3).downloaded.map
        CrawlRec.key = ["https://other.com/watermark/download.php?show=X"] ∧
      (crawlAndDownload c10Cfg c10World "https://example.com/" 3).downloaded.map
        CrawlRec.method = ["watermark_href"] ∧
      hostBlocked c10Cfg.allowed
        (pyUrlparse "https://other.com/watermark/download.php?show=X") = true ∧
      hostBlocked c10Cfg.allowed (pyUrlparse "https://other.com/doc.pdf") = true ∧
      (crawlAndDownload c10Cfg c10World "https://example.com/" 3).visited =
        ["https://example.com/"] ∧
      (crawlAndDownload c10Cfg c10World "https://example.com/" 3).queue = []) := by
  refine ⟨(crawlLoop_inv cfg w fuel _ (crawlInit_inv cfg startUrl)).2.2.2.2.2,
    by decide, by decide, by decide, by decide, by decide, by decide⟩

/-- Witness for C10: in a run whose result does contain a direct-method
record, that record's host passed the filter. -/
theorem C10_host_filter_witness :
    hostBlocked c10Cfg.allowed (pyUrlparse "https://example.com/doc.pdf") = false :=
  (C10_host_filter c10Cfg c10WorldB "https://example.com/" 3).1
    ⟨"https://example.com/doc.pdf", "direct", "https://example.com/",
      ⟨"", "dl/doc.pdf", "doc.pdf", "now"⟩⟩
    (by decide) rfl

/-- **C9.** When the `max_pdfs` limit is reached while processing a page, the
run terminates with the current extractor category's batch: the page's new
records decompose into an onclick group, then a watermark-href group, then a
direct group (the processing order); if the limit flag rose during the
onclick batch the two later groups are empty, and if it rose during the
watermark batch the direct group is empty; whenever the flag rose on this
page, no link of the page is enqueued (the queue is exactly as it was) and
the crawl loop performs no further step. -/
theorem C9_limit_cuts_page (cfg : CrawlConfig) (w : World) (cur : String)
    (pg : Page) (st : CrawlState) (hflag : st.maxPdfLimitHit = false) :
    ∃ n1 n2 n3 : List CrawlRec,
      (processPage cfg w cur pg st).downloaded =
        ((st.downloaded ++ n1) ++ n2) ++ n3 ∧
      (∀ r' ∈ n1, r'.method = "onclick" ∧ r'.sourcePage = cur) ∧
      (∀ r' ∈ n2, r'.method = "watermark_href" ∧ r'.sourcePage = cur) ∧
      (∀ r' ∈ n3, r'.method = "direct" ∧ r'.sourcePage = cur) ∧
      ((processPage cfg w cur pg st).maxPdfLimitHit = true →
        (processPage cfg w cur pg st).queue = st.queue ∧
        ∀ fuel, crawlLoop cfg w fuel (processPage cfg w cur pg st) =
          processPage cfg w cur pg st) ∧
      ((runRefs cfg.maxPdfs w.dlOnclick "onclick" cur (fun _ => false)
          pg.onclickPdfs st.downloaded st.downloadedUrls).2.2 = true →
        n2 = [] ∧ n3 = []) ∧
      ((runRefs cfg.maxPdfs w.dlWatermark "watermark_href" cur (fun _ => false)
          pg.watermarkHrefs
          (runRefs cfg.maxPdfs w.dlOnclick "onclick" cur (fun _ => false)
            pg.onclickPdfs st.downloaded st.downloadedUrls).1
          (runRefs cfg.maxPdfs w.dlOnclick "onclick" cur (fun _ => false)
            pg.onclickPdfs st.downloaded st.downloadedUrls).2.1).2.2 = true →
        n3 = []) := by
  unfold processPage
  dsimp only
  set r1 := runRefs cfg.maxPdfs w.dlOnclick "onclick" cur (fun _ => false)
    pg.onclickPdfs st.downloaded st.downloadedUrls with hr1
  set r2 := runRefs cfg.maxPdfs w.dlWatermark "watermark_href" cur (fun _ => false)
    pg.watermarkHrefs r1.1 r1.2.1 with hr2
  set r3 := runRefs cfg.maxPdfs w.dlDirect "direct" cur
    (fun u => hostBlocked cfg.allowed (pyUrlparse u)) pg.regularPdfs r2.1 r2.2.1
    with hr3
  obtain ⟨news1, hnews1, hprop1⟩ :=
    runRefs_news cfg.maxPdfs w.dlOnclick "onclick" cur (fun _ => false)
      pg.onclickPdfs st.downloaded st.downloadedUrls
  obtain ⟨news2, hnews2, hprop2⟩ :=
    runRefs_news cfg.maxPdfs w.dlWatermark "watermark_href" cur (fun _ => false)
      pg.watermarkHrefs r1.1 r1.2.1
  obtain ⟨news3, hnews3, hprop3⟩ :=
    runRefs_news cfg.maxPdfs w.dlDirect "direct" cur
      (fun u => hostBlocked cfg.allowed (pyUrlparse u)) pg.regularPdfs r2.1 r2.2.1
  rw [← hr1] at hnews1
  rw [← hr2] at hnews2
  rw [← hr3] at hnews3
  have hp1 : ∀ r' ∈ news1, r'.method = "onclick" ∧ r'.sourcePage = cur :=
    fun r' hr' => ⟨(hprop1 r' hr').1, (hprop1 r' hr').2.1⟩
  have hp2 : ∀ r' ∈ news2, r'.method = "watermark_href" ∧ r'.sourcePage = cur :=
    fun r' hr' => ⟨(hprop2 r' hr').1, (hprop2 r' hr').2.1⟩
  have hp3 : ∀ r' ∈ news3, r'.method = "direct" ∧ r'.sourcePage = cur :=
    fun r' hr' => ⟨(hprop3 r' hr').1, (hprop3 r' hr').2.1⟩
  split
  · -- flag rose during the onclick batch
    refine ⟨news1, [], [], ?_, hp1, by simp, by simp, ?_, fun _ => ⟨rfl, rfl⟩,
      fun _ => rfl⟩
    · simp [hnews1]
    · intro _
      exact ⟨rfl, fun fuel => crawlLoop_flag cfg w fuel _ rfl⟩
  · split
    · -- flag rose during the watermark batch
      rename_i hf1 hf2
      refine ⟨news1, news2, [], ?_, hp1, hp2, by simp, ?_, ?_, fun _ => rfl⟩
      · simp [hnews2, hnews1]
      · intro _
        exact ⟨rfl, fun fuel => crawlLoop_flag cfg w fuel _ rfl⟩
      · intro habs
        exact absurd habs hf1
    · split
      · -- flag rose during the direct batch
        rename_i hf1 hf2 hf3
        refine ⟨news1, news2, news3, ?_, hp1, hp2, hp3, ?_, ?_, ?_⟩
        · simp [hnews3, hnews2, hnews1]
        · intro _
          exact ⟨rfl, fun fuel => crawlLoop_flag cfg w fuel _ rfl⟩
        · intro habs
          exact absurd habs hf1
        · intro habs
          exact absurd habs hf2
      · -- the limit was not reached on this page
        rename_i hf1 hf2 hf3
        refine ⟨news1, news2, news3, ?_, hp1, hp2, hp3, ?_, ?_, ?_⟩
        · simp [hnews3, hnews2, hnews1]
        · intro habs
          exact absurd (hflag ▸ habs) (by simp)
        · intro habs
          exact absurd habs hf1
        · intro habs
          exact absurd habs hf2

/-- A page carrying one reference of each category plus a link, a world whose
downloads all succeed, a `max_pdfs = 1` configuration, and a mid-run state
with a non-empty frontier. -/
def c9Page : Page :=
  ⟨["pdf/a.pdf"], ["https://h/watermark/download.php?show=b"],
    ["https://h/c.pdf"], ["https://h/next"]⟩

def c9World : World :=
  { page := fun _ => some c9Page
    dlOnclick := fun _ _ => some ⟨"", "dl/a.pdf", "a.pdf", "t"⟩
    dlWatermark := fun _ _ => some ⟨"", "dl/b.pdf", "b.pdf", "t"⟩
    dlDirect := fun _ _ => some ⟨"", "dl/c.pdf", "c.pdf", "t"⟩ }

def c9Cfg : CrawlConfig := ⟨none, none, some 1⟩

def c9St : CrawlState := ⟨["https://h/"], ["https://h/keep"], [], [], 1, false⟩

/-- Witness for C9: with `max_pdfs = 1`, the onclick download of the page
fills the quota, so only the onclick record is produced, no link of the page
is enqueued, and the loop performs no further step. -/
theorem C9_limit_cuts_page_witness :
    (processPage c9Cfg c9World "https://h/" c9Page c9St).queue = c9St.queue ∧
    (processPage c9Cfg c9World "https://h/" c9Page c9St).maxPdfLimitHit = true ∧
    (processPage c9Cfg c9World "https://h/" c9Page c9St).downloaded.map
      CrawlRec.method = ["onclick"] ∧
    crawlLoop c9Cfg c9World 5 (processPage c9Cfg c9World "https://h/" c9Page c9St) =
      processPage c9Cfg c9World "https://h/" c9Page c9St := by
  obtain ⟨n1, n2, n3, hdl, h1, h2, h3, hterm, hcut1, hcut2⟩ :=
    C9_limit_cuts_page c9Cfg c9World "https://h/" c9Page c9St rfl
  have hf : (processPage c9Cfg c9World "https://h/" c9Page c9St).maxPdfLimitHit = true := by
    decide
  exact ⟨(hterm hf).1, hf, by decide, (hterm hf).2 5⟩
